import Mathlib

set_option maxRecDepth 1000000
set_option maxHeartbeats 2000000

/-!
Verification of the NLP→MongoDB query pipeline
(schema inference, rule-based parser, IR validator, IR compiler).

Python source files embedded here:
  nlp_service/schema_utils.py   (document flattening, type detection, merge lattice)
  nlp_service/ir_validator.py   (field resolution cascade, validate_ir)
  nlp_service/ir_compiler.py    (type-aware filter compilation)
  nlp_service/llm_parser.py     (value sanitisation slice)
  nlp_service/parser.py         (rule-based natural-language parser)

Python scalars are modelled as a single inductive `Val`; Python `dict`s
become insertion-ordered association lists; Python `float` is modelled as
the exact fraction `PyFloat` (exact where the claims need it);
`datetime.datetime` becomes the record `PyDateTime`.  Python's ambient clock (`datetime.now()`) is made an
explicit argument wherever the source reads it.
-/

namespace NlpMongo

/-- Model of `datetime.datetime`: proleptic-Gregorian calendar fields. -/
structure PyDateTime where
  year : Int
  month : Nat
  day : Nat
  hour : Nat
  minute : Nat
  second : Nat
  microsecond : Nat
deriving DecidableEq, Repr

/-- Model of a Python `float` as an exact fraction `num / den` (`den > 0`,
not necessarily reduced); the pipeline only builds floats from decimal
literals and compares them against small thresholds, where the exact value
and the IEEE value agree.  Kept as a plain pair so that the kernel can
evaluate it (Mathlib's `Rat` arithmetic does not reduce definitionally). -/
structure PyFloat where
  num : Int
  den : Nat
deriving DecidableEq, Repr

namespace PyFloat

/-- Embed an integer. -/
def ofInt (n : Int) : PyFloat := ⟨n, 1⟩

/-- `a ≤ b` on fractions with positive denominators. -/
def le (a b : PyFloat) : Bool := a.num * (b.den : Int) ≤ b.num * (a.den : Int)

/-- `a < b` on fractions with positive denominators. -/
def lt (a b : PyFloat) : Bool := a.num * (b.den : Int) < b.num * (a.den : Int)

/-- Python `int(x)`: truncation toward zero. -/
def trunc (x : PyFloat) : Int :=
  if 0 ≤ x.num then ((x.num.toNat / x.den : Nat) : Int)
  else -(((-x.num).toNat / x.den : Nat) : Int)

/-- Whether `x` equals the integer `int(x)` (Python `x == int(x)`). -/
def eqInt (x : PyFloat) : Bool := x.num = x.trunc * (x.den : Int)

end PyFloat

/-- Model of the Python / BSON values flowing through the pipeline.
`objectId` keeps the 24-hex-digit string it was built from. -/
inductive Val where
  | str (s : String)
  | int (n : Int)
  | float (q : PyFloat)
  | bool (b : Bool)
  | dt (d : PyDateTime)
  | objectId (hex : String)
  | list (xs : List Val)
  | dict (kvs : List (String × Val))
  | null
deriving Repr

mutual

/-- Structural equality test on `Val` (the nested inductive blocks automatic
`DecidableEq` derivation, so it is spelled out). -/
def Val.beq : Val → Val → Bool
  | .str a, .str b => a = b
  | .int a, .int b => a = b
  | .float a, .float b => a = b
  | .bool a, .bool b => a = b
  | .dt a, .dt b => a = b
  | .objectId a, .objectId b => a = b
  | .list a, .list b => Val.beqList a b
  | .dict a, .dict b => Val.beqKvs a b
  | .null, .null => true
  | _, _ => false

/-- Elementwise `Val.beq` on lists. -/
def Val.beqList : List Val → List Val → Bool
  | [], [] => true
  | a :: as, b :: bs => Val.beq a b && Val.beqList as bs
  | _, _ => false

/-- Elementwise `Val.beq` on key-value lists. -/
def Val.beqKvs : List (String × Val) → List (String × Val) → Bool
  | [], [] => true
  | (k1, v1) :: as, (k2, v2) :: bs => k1 = k2 && (Val.beq v1 v2 && Val.beqKvs as bs)
  | _, _ => false

end

mutual

/-- `Val.beq` is sound for propositional equality. -/
def Val.beqSound : (a b : Val) → Val.beq a b = true → a = b
  | .str a, .str b, h => by simp only [Val.beq, decide_eq_true_eq] at h; rw [h]
  | .int a, .int b, h => by simp only [Val.beq, decide_eq_true_eq] at h; rw [h]
  | .float a, .float b, h => by simp only [Val.beq, decide_eq_true_eq] at h; rw [h]
  | .bool a, .bool b, h => by simp only [Val.beq, decide_eq_true_eq] at h; rw [h]
  | .dt a, .dt b, h => by simp only [Val.beq, decide_eq_true_eq] at h; rw [h]
  | .objectId a, .objectId b, h => by simp only [Val.beq, decide_eq_true_eq] at h; rw [h]
  | .list a, .list b, h => by
      rw [Val.beqListSound a b (by simpa [Val.beq] using h)]
  | .dict a, .dict b, h => by
      rw [Val.beqKvsSound a b (by simpa [Val.beq] using h)]
  | .null, .null, _ => rfl

/-- `Val.beqList` is sound. -/
def Val.beqListSound : (a b : List Val) → Val.beqList a b = true → a = b
  | [], [], _ => rfl
  | a :: as, b :: bs, h => by
      simp only [Val.beqList, Bool.and_eq_true] at h
      rw [Val.beqSound a b h.1, Val.beqListSound as bs h.2]

/-- `Val.beqKvs` is sound. -/
def Val.beqKvsSound : (a b : List (String × Val)) → Val.beqKvs a b = true → a = b
  | [], [], _ => rfl
  | (k1, v1) :: as, (k2, v2) :: bs, h => by
      simp only [Val.beqKvs, Bool.and_eq_true, decide_eq_true_eq] at h
      rw [h.1, Val.beqSound v1 v2 h.2.1, Val.beqKvsSound as bs h.2.2]

end

mutual

/-- `Val.beq` is reflexive. -/
def Val.beqRefl : (a : Val) → Val.beq a a = true
  | .str _ => by simp [Val.beq]
  | .int _ => by simp [Val.beq]
  | .float _ => by simp [Val.beq]
  | .bool _ => by simp [Val.beq]
  | .dt _ => by simp [Val.beq]
  | .objectId _ => by simp [Val.beq]
  | .list a => by simpa [Val.beq] using Val.beqListRefl a
  | .dict a => by simpa [Val.beq] using Val.beqKvsRefl a
  | .null => rfl

/-- `Val.beqList` is reflexive. -/
def Val.beqListRefl : (a : List Val) → Val.beqList a a = true
  | [] => rfl
  | a :: as => by
      simp only [Val.beqList, Bool.and_eq_true]
      exact ⟨Val.beqRefl a, Val.beqListRefl as⟩

/-- `Val.beqKvs` is reflexive. -/
def Val.beqKvsRefl : (a : List (String × Val)) → Val.beqKvs a a = true
  | [] => rfl
  | (k, v) :: as => by
      simp only [Val.beqKvs, Bool.and_eq_true, decide_eq_true_eq]
      refine ⟨by trivial, Val.beqRefl v, Val.beqKvsRefl as⟩

end

instance : DecidableEq Val := fun a b =>
  decidable_of_iff (Val.beq a b = true)
    ⟨Val.beqSound a b, fun h => h ▸ Val.beqRefl a⟩

mutual

/-- Structural size of a `Val` (used as a recursion-depth bound where the
nested inductive forces fuel-style recursion). -/
def Val.msize : Val → Nat
  | .list xs => 1 + Val.msizeList xs
  | .dict kvs => 1 + Val.msizeKvs kvs
  | _ => 1

/-- Size of a value list. -/
def Val.msizeList : List Val → Nat
  | [] => 1
  | v :: vs => 1 + Val.msize v + Val.msizeList vs

/-- Size of a key-value list. -/
def Val.msizeKvs : List (String × Val) → Nat
  | [] => 1
  | (_, v) :: kvs => 1 + Val.msize v + Val.msizeKvs kvs

end

/-- A MongoDB filter document (a Python `dict` at top level). -/
abbrev MDoc := List (String × Val)

-- ---------------------------------------------------------------------------
-- Python dict / string primitives
-- ---------------------------------------------------------------------------

/-- `d[k] = v` on an insertion-ordered dict: replace in place or append. -/
def dictSet (m : List (String × Val)) (k : String) (v : Val) : List (String × Val) :=
  if m.any (fun p => p.1 = k) then
    m.map (fun p => if p.1 = k then (k, v) else p)
  else
    m ++ [(k, v)]

/-- `d.get(k)` on an association list. -/
def dictGet (m : List (String × Val)) (k : String) : Option Val :=
  (m.find? (fun p => p.1 = k)).map Prod.snd

/-- `d.get(k)` on a string-valued association list (used for field_types). -/
def sdictGet (m : List (String × String)) (k : String) : Option String :=
  (m.find? (fun p => p.1 = k)).map Prod.snd

/-- `d[k] = v` on a string-valued insertion-ordered dict. -/
def sdictSet (m : List (String × String)) (k : String) (v : String) : List (String × String) :=
  if m.any (fun p => p.1 = k) then
    m.map (fun p => if p.1 = k then (k, v) else p)
  else
    m ++ [(k, v)]

/-- The apostrophe character, kept out of string literals. -/
def apos : Char := Char.ofNat 39

/-- The apostrophe as a one-character string. -/
def aposS : String := String.mk [apos]

/-- Python `str.lower()` (ASCII behaviour, which is all the sources use;
spelled out on the char list so the kernel can evaluate it). -/
def pyLower (s : String) : String := String.mk (s.toList.map Char.toLower)

/-- Python whitespace test used by `str.split()` / `\s`. -/
def isPyWs (c : Char) : Bool :=
  c = ' ' ∨ c = '\t' ∨ c = '\n' ∨ c = '\r' ∨ c = Char.ofNat 11 ∨ c = Char.ofNat 12

/-- Python `str.strip()` (strip whitespace at both ends). -/
def pyStrip (s : String) : String :=
  String.mk ((s.toList.dropWhile isPyWs).reverse.dropWhile isPyWs).reverse

/-- Python `sub in s` (substring containment on raw strings). -/
def strContains (hay needle : String) : Bool :=
  (List.range (hay.length + 1)).any (fun i => (hay.toList.drop i).take needle.length = needle.toList)

/-- Index of the first occurrence of `needle` in `hay` (Python `str.index`),
`none` when absent. -/
def strFind (hay needle : String) : Option Nat :=
  (List.range (hay.length + 1)).find? (fun i => (hay.toList.drop i).take needle.length = needle.toList)

/-- ASCII digit test (Python `str.isdigit` on the ASCII range). -/
def isAsciiDigit (c : Char) : Bool := '0' ≤ c ∧ c ≤ '9'

/-- Python `str.isdigit()`: non-empty and all digits. -/
def pyIsDigit (s : String) : Bool :=
  s ≠ "" ∧ s.toList.all isAsciiDigit

/-- Digits of a char list read as a natural number. -/
def digitsToNat (ds : List Char) : Nat :=
  ds.foldl (fun acc c => acc * 10 + (c.toNat - 48)) 0

/-- Python `int(s)`: optional surrounding whitespace, optional sign,
then decimal digits. -/
def pyIntOfString (s : String) : Option Int :=
  let t := pyStrip s
  let core := t.toList
  let (sign, ds) : Int × List Char :=
    match core with
    | '-' :: rest => (-1, rest)
    | '+' :: rest => (1, rest)
    | rest => (1, rest)
  if ds ≠ [] ∧ ds.all isAsciiDigit then
    some (sign * (digitsToNat ds : Int))
  else
    none

/-- Python `float(s)` for ordinary decimal literals
(`[sign] digits [. digits] [e [sign] digits]`, at least one digit in the
mantissa); special values (`inf`, `nan`) are not needed by any claim and
yield `none`.  The value is the exact decimal fraction (IEEE rounding is
not modelled; no claim below depends on it). -/
def pyFloatOfString (s : String) : Option PyFloat :=
  let t := pyStrip s
  let core := t.toList
  let (sign, rest0) : Int × List Char :=
    match core with
    | '-' :: r => (-1, r)
    | '+' :: r => (1, r)
    | r => (1, r)
  let ip := rest0.takeWhile isAsciiDigit
  let rest1 := rest0.drop ip.length
  let (fp, rest2) : List Char × List Char :=
    match rest1 with
    | '.' :: r => (r.takeWhile isAsciiDigit, r.drop (r.takeWhile isAsciiDigit).length)
    | r => ([], r)
  if ip = [] ∧ fp = [] then none
  else if (rest1 ≠ [] ∧ rest1.head? ≠ some '.' ∧ rest1.head? ≠ some 'e' ∧ rest1.head? ≠ some 'E') then none
  else
    let mant : PyFloat := ⟨sign * ((digitsToNat ip * 10 ^ fp.length + digitsToNat fp : Nat) : Int), 10 ^ fp.length⟩
    match rest2 with
    | [] => some mant
    | e :: r =>
      if e = 'e' ∨ e = 'E' then
        let (eneg, eds) : Bool × List Char :=
          match r with
          | '-' :: r2 => (true, r2)
          | '+' :: r2 => (false, r2)
          | r2 => (false, r2)
        if eds ≠ [] ∧ eds.all isAsciiDigit then
          some (if eneg then ⟨mant.num, mant.den * 10 ^ digitsToNat eds⟩
                else ⟨mant.num * ((10 : Int) ^ digitsToNat eds), mant.den⟩)
        else none
      else none

-- ---------------------------------------------------------------------------
-- Calendar arithmetic for the `datetime` model
-- ---------------------------------------------------------------------------

/-- Gregorian leap-year test. -/
def isLeapYear (y : Int) : Bool :=
  Int.emod y 4 = 0 ∧ (Int.emod y 100 ≠ 0 ∨ Int.emod y 400 = 0)

/-- Days in a month of a given year. -/
def daysInMonth (y : Int) (m : Nat) : Nat :=
  if m = 2 then (if isLeapYear y then 29 else 28)
  else if m = 4 ∨ m = 6 ∨ m = 9 ∨ m = 11 then 30
  else 31

namespace PyDateTime

end PyDateTime

-- ---------------------------------------------------------------------------
-- `datetime.strptime` for the compiler's prioritized format list
-- ---------------------------------------------------------------------------

/-- One token of a `strptime` format string. -/
inductive FTok where
  | lit (c : Char)
  | dY | dm | dd | dH | dM | dS | df | dB | db
deriving DecidableEq, Repr

/-- Partial parse state of `strptime` (Python defaults: 1900-01-01 00:00:00). -/
structure StpSt where
  y : Int := 1900
  m : Nat := 1
  d : Nat := 1
  H : Nat := 0
  Mi : Nat := 0
  S : Nat := 0
  f : Nat := 0
deriving Repr

/-- Full month names, January = 1. -/
def monthNames : List String :=
  ["january", "february", "march", "april", "may", "june", "july",
   "august", "september", "october", "november", "december"]

/-- Abbreviated month names, Jan = 1. -/
def monthAbbrs : List String :=
  ["jan", "feb", "mar", "apr", "may", "jun", "jul", "aug", "sep", "oct", "nov", "dec"]

/-- Numeric value of a run of ASCII digit characters. -/
def natOfDigits (ds : List Char) : Nat :=
  ds.foldl (fun acc c => acc * 10 + (c.toNat - 48)) 0

/-- Candidate (value, remaining input) splits for a numeric directive, in the
order the corresponding Python `_strptime` regex alternation tries them. -/
def numCandidates (lo2 hi2 : Nat) (oneLo oneHi : Nat) (s : List Char) : List (Nat × List Char) :=
  let two :=
    match s with
    | a :: b :: rest =>
      if isAsciiDigit a ∧ isAsciiDigit b then
        let v := natOfDigits [a, b]
        if lo2 ≤ v ∧ v ≤ hi2 then [(v, rest)] else []
      else []
    | _ => []
  let one :=
    match s with
    | a :: rest =>
      if isAsciiDigit a then
        let v := natOfDigits [a]
        if oneLo ≤ v ∧ v ≤ oneHi then [(v, rest)] else []
      else []
    | _ => []
  two ++ one

/-- Candidate splits for a month-name directive (longest names first, as the
generated regex sorts alternatives by length). -/
def nameCandidates (names : List String) (s : List Char) : List (Nat × List Char) :=
  (names.enum.filter (fun p => (s.take p.2.length).map Char.toLower = p.2.toList)).map
    (fun p => (p.1 + 1, s.drop p.2.length))

/-- Backtracking matcher for a `strptime` format over the input characters;
requires the whole input to be consumed (Python raises on unconverted data). -/
def matchFmt : List FTok → List Char → StpSt → Option StpSt
  | [], [], st => some st
  | [], _ :: _, _ => none
  | .lit c :: rest, s, st =>
    match s with
    | x :: xs => if x.toLower = c.toLower then matchFmt rest xs st else none
    | [] => none
  | .dY :: rest, s, st =>
    (match s with
     | a :: b :: c :: d :: xs =>
       if [a, b, c, d].all isAsciiDigit then
         matchFmt rest xs { st with y := (natOfDigits [a, b, c, d] : Int) }
       else none
     | _ => none)
  | .dm :: rest, s, st =>
    (numCandidates 1 12 1 9 s).findSome? (fun p => matchFmt rest p.2 { st with m := p.1 })
  | .dd :: rest, s, st =>
    (numCandidates 1 31 1 9 s).findSome? (fun p => matchFmt rest p.2 { st with d := p.1 })
  | .dH :: rest, s, st =>
    (numCandidates 0 23 0 9 s).findSome? (fun p => matchFmt rest p.2 { st with H := p.1 })
  | .dM :: rest, s, st =>
    (numCandidates 0 59 0 9 s).findSome? (fun p => matchFmt rest p.2 { st with Mi := p.1 })
  | .dS :: rest, s, st =>
    (numCandidates 0 61 0 9 s).findSome? (fun p => matchFmt rest p.2 { st with S := p.1 })
  | .df :: rest, s, st =>
    ([6, 5, 4, 3, 2, 1].filterMap (fun (n : Nat) =>
        let ds := s.take n
        if ds.length = n ∧ ds.all isAsciiDigit then
          some (natOfDigits ds * 10 ^ (6 - n), s.drop n)
        else none)).findSome?
      (fun p => matchFmt rest p.2 { st with f := p.1 })
  | .dB :: rest, s, st =>
    (nameCandidates monthNames s).findSome? (fun p => matchFmt rest p.2 { st with m := p.1 })
  | .db :: rest, s, st =>
    (nameCandidates monthAbbrs s).findSome? (fun p => matchFmt rest p.2 { st with m := p.1 })

/-- Validation performed by the `datetime` constructor after a successful
regex match: out-of-range fields raise `ValueError`. -/
def stpValid (st : StpSt) : Bool :=
  1 ≤ st.y ∧ 1 ≤ st.d ∧ st.d ≤ daysInMonth st.y st.m ∧ st.S ≤ 59

/-- `datetime.strptime(s, fmt)` for one tokenized format. -/
def strptimeFmt (fmt : List FTok) (s : String) : Option PyDateTime :=
  (matchFmt fmt s.toList {}).bind fun st =>
    if stpValid st then
      some { year := st.y, month := st.m, day := st.d,
             hour := st.H, minute := st.Mi, second := st.S, microsecond := st.f }
    else none

/-- Literal tokens of a plain string. -/
def lits (s : String) : List FTok := s.toList.map FTok.lit

/-- `_DATE_FORMATS` from `ir_compiler.py`, tokenized, in source order. -/
def _DATE_FORMATS : List (List FTok) :=
  [ [FTok.dY] ++ lits "-" ++ [FTok.dm] ++ lits "-" ++ [FTok.dd] ++ lits "T" ++
      [FTok.dH] ++ lits ":" ++ [FTok.dM] ++ lits ":" ++ [FTok.dS] ++ lits "." ++ [FTok.df] ++ lits "Z",
    [FTok.dY] ++ lits "-" ++ [FTok.dm] ++ lits "-" ++ [FTok.dd] ++ lits "T" ++
      [FTok.dH] ++ lits ":" ++ [FTok.dM] ++ lits ":" ++ [FTok.dS] ++ lits "Z",
    [FTok.dY] ++ lits "-" ++ [FTok.dm] ++ lits "-" ++ [FTok.dd] ++ lits "T" ++
      [FTok.dH] ++ lits ":" ++ [FTok.dM] ++ lits ":" ++ [FTok.dS] ++ lits "." ++ [FTok.df],
    [FTok.dY] ++ lits "-" ++ [FTok.dm] ++ lits "-" ++ [FTok.dd] ++ lits "T" ++
      [FTok.dH] ++ lits ":" ++ [FTok.dM] ++ lits ":" ++ [FTok.dS],
    [FTok.dY] ++ lits "-" ++ [FTok.dm] ++ lits "-" ++ [FTok.dd] ++ lits " " ++
      [FTok.dH] ++ lits ":" ++ [FTok.dM] ++ lits ":" ++ [FTok.dS],
    [FTok.dY] ++ lits "-" ++ [FTok.dm] ++ lits "-" ++ [FTok.dd],
    [FTok.dm] ++ lits "/" ++ [FTok.dd] ++ lits "/" ++ [FTok.dY],
    [FTok.dd] ++ lits "/" ++ [FTok.dm] ++ lits "/" ++ [FTok.dY],
    [FTok.dd] ++ lits "-" ++ [FTok.dm] ++ lits "-" ++ [FTok.dY],
    [FTok.dB] ++ lits " " ++ [FTok.dd] ++ lits ", " ++ [FTok.dY],
    [FTok.db] ++ lits " " ++ [FTok.dd] ++ lits ", " ++ [FTok.dY],
    [FTok.dY] ]

-- ---------------------------------------------------------------------------
-- schema_utils.py — type detection, flattening, lattice merge
-- ---------------------------------------------------------------------------

/-- `_detect_type` from `schema_utils.py`.  The `isinstance` cascade checks
`bool` before `int` (Python `bool` is an `int` subclass); array element
classification counts `bool` elements as numeric, exactly as
`isinstance(v, (int, float))` does. -/
def _detect_type : Val → String
  | .bool _ => "bool"
  | .dt _ => "date"
  | .int _ => "int"
  | .float _ => "float"
  | .str _ => "string"
  | .dict _ => "object"
  | .list xs =>
      if xs = [] then "array_mixed"
      else
        let has_str := xs.any fun v => match v with | .str _ => true | _ => false
        let has_num := xs.any fun v => match v with
          | .int _ => true | .float _ => true | .bool _ => true | _ => false
        let has_dict := xs.any fun v => match v with | .dict _ => true | _ => false
        if has_dict then "array_of_objects"
        else if has_str ∧ ¬ has_num then "array_of_strings"
        else if has_num ∧ ¬ has_str then "array_of_numbers"
        else "array_mixed"
  | _ => "unknown"

/-- `_type_priority` from `get_collection_schema` (`.get(t, 0)` default 0). -/
def _type_priority (t : String) : Nat :=
  if t = "unknown" then 0
  else if t = "string" then 1
  else if t = "bool" then 1
  else if t = "date" then 2
  else if t = "int" then 2
  else if t = "float" then 2
  else if t = "array_mixed" then 3
  else if t = "array_of_numbers" then 4
  else if t = "array_of_strings" then 4
  else if t = "array_of_objects" then 5
  else if t = "object" then 5
  else 0

/-- The lattice-merge update used (verbatim, twice) in `schema_utils.py`:
`if existing is None or priority.get(ftype, 0) > priority.get(existing, 0):
field_types[key] = ftype`. -/
def _merge_field_type (field_types : List (String × String)) (key ftype : String) :
    List (String × String) :=
  match sdictGet field_types key with
  | none => sdictSet field_types key ftype
  | some existing =>
      if _type_priority ftype > _type_priority existing then sdictSet field_types key ftype
      else field_types

/-- `dict.update` with another dict's pairs, in order. -/
def pyDictUpdate (m adds : List (String × Val)) : List (String × Val) :=
  adds.foldl (fun acc p => dictSet acc p.1 p.2) m

/-- Python truthiness of a string-keyed value for `f"{parent}{sep}{key}"`. -/
def joinKey (parent key : String) : String :=
  if parent ≠ "" then parent ++ "." ++ key else key

/-- Fuel-indexed body of `flatten_document` from `schema_utils.py`
(the fuel makes the nested recursion structural, so the kernel can evaluate
it; `Val.msizeKvs` of the document strictly bounds the recursion depth, so
the wrapper below never runs out).  Top-level `_id` (more precisely: any key
equal to `"_id"` seen with an empty `parent_key`) is skipped; nested dicts
recurse; non-empty arrays whose elements include dicts are flattened through
each dict element; everything else is a terminal entry. -/
def flattenFuel : Nat → List (String × Val) → String → List (String × Val) → List (String × Val)
  | 0, _, _, items => items
  | fuel + 1, doc, parent_key, items =>
    match doc with
    | [] => items
    | (key, value) :: rest =>
      let items' :=
        if key = "_id" ∧ parent_key = "" then items
        else
          let new_key := joinKey parent_key key
          match value with
          | .dict d => pyDictUpdate items (flattenFuel fuel d new_key [])
          | .list xs =>
            if xs.any (fun v => match v with | .dict _ => true | _ => false) then
              xs.foldl (fun acc el =>
                match el with
                | .dict d => pyDictUpdate acc (flattenFuel fuel d new_key [])
                | _ => acc) items
            else dictSet items new_key (.list xs)
          | v => dictSet items new_key v
      flattenFuel fuel rest parent_key items'

/-- `flatten_document` from `schema_utils.py` (fuel instantiated so that it
can never be exhausted).  Note that the `isinstance(value, list) and value`
guard and its `else` branch store the same terminal entry for an empty list,
so the empty-list case needs no separate branch. -/
def flatten_document (doc : List (String × Val)) (parent_key : String) : List (String × Val) :=
  flattenFuel (Val.msizeKvs doc) doc parent_key []

/-- Fuel-indexed body of `_detect_field_types_recursive` from
`schema_utils.py`. -/
def detectFuel : Nat → List (String × Val) → String → List (String × String) → List (String × String)
  | 0, _, _, field_types => field_types
  | fuel + 1, doc, parent_key, field_types =>
    match doc with
    | [] => field_types
    | (key, value) :: rest =>
      let ft' :=
        if key = "_id" ∧ parent_key = "" then field_types
        else
          let full_key := joinKey parent_key key
          let ft1 := _merge_field_type field_types full_key (_detect_type value)
          match value with
          | .dict d => detectFuel fuel d full_key ft1
          | .list xs =>
            xs.foldl (fun acc el =>
              match el with
              | .dict d => detectFuel fuel d full_key acc
              | _ => acc) ft1
          | _ => ft1
      detectFuel fuel rest parent_key ft'

/-- `_detect_field_types_recursive` from `schema_utils.py`. -/
def _detect_field_types_recursive (doc : List (String × Val)) (parent_key : String)
    (field_types : List (String × String)) : List (String × String) :=
  detectFuel (Val.msizeKvs doc) doc parent_key field_types

/-- Lexicographic code-point comparison on char lists (Python's string
order). -/
def charListLe : List Char → List Char → Bool
  | [], _ => true
  | _ :: _, [] => false
  | a :: as, b :: bs => if a = b then charListLe as bs else decide (a < b)

/-- Python string `<=`. -/
def pyStrLe (a b : String) : Bool := charListLe a.toList b.toList

/-- Insert into a sorted list of strings. -/
def insertSorted (x : String) : List String → List String
  | [] => [x]
  | y :: ys => if pyStrLe x y then x :: y :: ys else y :: insertSorted x ys

/-- `sorted(set)`. -/
def pySorted (l : List String) : List String := l.foldr insertSorted []

/-- Set-semantics insertion for the `all_fields` / `numeric_fields` sets. -/
def setInsert (l : List String) (x : String) : List String :=
  if l.contains x then l else l ++ [x]

/-- The post-sampling core of `get_collection_schema` from `schema_utils.py`:
given the sampled documents, return `(allowed_fields, numeric_fields,
field_types)`.  The Mongo connection, cursor and logging of the original are
the I/O shell around exactly this computation. -/
def get_collection_schema (docs : List (List (String × Val))) :
    List String × List String × List (String × String) :=
  if docs = [] then ([], [], [])
  else
    let step := fun (st : List String × List String × List (String × String))
        (doc : List (String × Val)) =>
      let ft1 := _detect_field_types_recursive doc "" st.2.2
      let flat := flatten_document doc ""
      flat.foldl (fun acc (p : String × Val) =>
        let all' := setInsert acc.1 p.1
        let isNum := match p.2 with | .int _ => true | .float _ => true | _ => false
        let num' := if isNum then setInsert acc.2.1 p.1 else acc.2.1
        let ft' := _merge_field_type acc.2.2 p.1 (_detect_type p.2)
        (all', num', ft')) (st.1, st.2.1, ft1)
    let r := docs.foldl step ([], [], [])
    (pySorted r.1, pySorted r.2.1, r.2.2)

-- ---------------------------------------------------------------------------
-- ir_compiler.py — type-aware filter compilation
-- ---------------------------------------------------------------------------

/-- One IR condition (`{field, operator, value}`). -/
structure Condition where
  field : String
  operator : String
  value : Val
deriving DecidableEq, Repr

/-- `_OBJECTID_RE.match`: exactly 24 hex characters. -/
def isObjectIdHex (s : String) : Bool :=
  s.length = 24 ∧ s.toList.all fun c =>
    isAsciiDigit c ∨ ('a' ≤ c ∧ c ≤ 'f') ∨ ('A' ≤ c ∧ c ≤ 'F')

/-- The characters Python `re.escape` prefixes with a backslash. -/
def _re_special : List Char :=
  ['(', ')', '[', ']', Char.ofNat 123, Char.ofNat 125, '?', '*', '+', '-', '|',
   '^', '$', '\\', '.', '&', '~', '#', ' ', '\t', '\n', '\r', Char.ofNat 11, Char.ofNat 12]

/-- Python `re.escape`. -/
def re_escape (s : String) : String :=
  String.mk (s.toList.foldr (fun c acc =>
    if _re_special.contains c then '\\' :: c :: acc else c :: acc) [])

/-- `_case_insensitive_eq` from `ir_compiler.py`. -/
def _case_insensitive_eq (value : Val) : Val :=
  match value with
  | .str s => .dict [("$regex", .str ("^" ++ re_escape s ++ "$")), ("$options", .str "i")]
  | v => v

/-- `_case_insensitive_contains` from `ir_compiler.py`. -/
def _case_insensitive_contains (value : Val) : Val :=
  match value with
  | .str s => .dict [("$regex", .str (re_escape s)), ("$options", .str "i")]
  | v => v

/-- Python `str(value)` for the value shapes `_build_id_filter` receives
(strings in every claim; numerals for completeness). -/
def pyStr : Val → String
  | .str s => s
  | .int n => toString n
  | .bool b => if b then "True" else "False"
  | .null => "None"
  | _ => ""

/-- `str.replace(".", "", 1)`. -/
def stripFirstDot (s : String) : String :=
  match strFind s "." with
  | some i => String.mk (s.toList.take i ++ s.toList.drop (i + 1))
  | none => s

/-- `str.lstrip("-")`. -/
def lstripMinus (s : String) : String :=
  String.mk (s.toList.dropWhile (fun c => c = '-'))

/-- `_build_id_filter` from `ir_compiler.py`: candidate filters for `_id` in
source order (as-given string; `int(str_val)` when it parses; `float(str_val)`
when the digits-with-one-dot guard holds and the value is non-integral;
`ObjectId` when the text is 24 hex characters), wrapped in `$or` unless there
is a single candidate. -/
def _build_id_filter (value : Val) : MDoc :=
  let str_val := pyStr value
  let c1 : List MDoc := [[("_id", Val.str str_val)]]
  let c2 : List MDoc :=
    match pyIntOfString str_val with
    | some n => [[("_id", Val.int n)]]
    | none => []
  let c3 : List MDoc :=
    match pyFloatOfString str_val with
    | some q =>
      if (if pyIsDigit (lstripMinus (stripFirstDot str_val)) then ¬ q.eqInt else false) then
        [[("_id", Val.float q)]]
      else []
    | none => []
  let c4 : List MDoc :=
    if isObjectIdHex str_val then [[("_id", Val.objectId str_val)]] else []
  let candidates := c1 ++ c2 ++ c3 ++ c4
  match candidates with
  | [c] => c
  | cs => [("$or", Val.list (cs.map Val.dict))]

/-- `_PARTIAL_MATCH_TYPES` from `ir_compiler.py`. -/
def _PARTIAL_MATCH_TYPES : List String := ["array_of_strings", "array_mixed"]

/-- `_build_eq_filter` from `ir_compiler.py`. -/
def _build_eq_filter (field : String) (value : Val) (field_types : List (String × String)) :
    MDoc :=
  match value with
  | .list xs => [(field, Val.list xs)]
  | _ =>
    if field = "_id" then _build_id_filter value
    else
      let ftype := sdictGet field_types field
      if (match ftype with | some t => _PARTIAL_MATCH_TYPES.contains t | none => false) then
        [(field, _case_insensitive_contains value)]
      else
        match value with
        | .str s =>
          if isObjectIdHex s then [(field, Val.objectId s)]
          else [(field, _case_insensitive_eq value)]
        | v => [(field, _case_insensitive_eq v)]

/-- `_parse_date_value` from `ir_compiler.py`. -/
def _parse_date_value (value : Val) : Val :=
  match value with
  | .dt _ => value
  | .int n => if 1000 ≤ n ∧ n ≤ 9999 then .dt ⟨n, 1, 1, 0, 0, 0, 0⟩ else value
  | .float q =>
      if PyFloat.le ⟨1000, 1⟩ q ∧ PyFloat.le q ⟨9999, 1⟩ then
        .dt ⟨q.trunc, 1, 1, 0, 0, 0, 0⟩
      else value
  | .str s =>
      let val := pyStrip s
      match _DATE_FORMATS.findSome? (fun f => strptimeFmt f val) with
      | some d => .dt d
      | none => value
  | v => v

/-- `value.replace(hour=23, minute=59, second=59, microsecond=999999)`. -/
def dayEnd (d : PyDateTime) : PyDateTime :=
  { d with hour := 23, minute := 59, second := 59, microsecond := 999999 }

/-- The per-condition filter built inside `build_match_stage`'s loop
(`[]` when the operator is none of the handled ones, so nothing is appended). -/
def conditionFilter (field_types : List (String × String)) (condition : Condition) :
    List MDoc :=
  let field := condition.field
  let operator := condition.operator
  let ftype := sdictGet field_types field
  let value :=
    if ftype = some "date" ∧ operator ≠ "exists" then
      match condition.value with
      | .list vs => Val.list (vs.map _parse_date_value)
      | v => _parse_date_value v
    else condition.value
  if operator = "eq" then
    match value with
    | .dt d =>
      if ftype = some "date" then
        if d.hour = 0 ∧ d.minute = 0 ∧ d.second = 0 then
          [[(field, Val.dict [("$gte", Val.dt d), ("$lte", Val.dt (dayEnd d))])]]
        else [[(field, Val.dt d)]]
      else [_build_eq_filter field value field_types]
    | _ => [_build_eq_filter field value field_types]
  else if operator = "contains" then
    match value with
    | .str s =>
      if isObjectIdHex s then [[(field, Val.objectId s)]]
      else [[(field, _case_insensitive_contains value)]]
    | .dt d =>
      if ftype = some "date" then
        if d.hour = 0 ∧ d.minute = 0 ∧ d.second = 0 then
          [[(field, Val.dict [("$gte", Val.dt d), ("$lte", Val.dt (dayEnd d))])]]
        else [[(field, Val.dt d)]]
      else [[(field, _case_insensitive_contains value)]]
    | _ => [[(field, _case_insensitive_contains value)]]
  else if operator = "gt" then [[(field, Val.dict [("$gt", value)])]]
  else if operator = "gte" then [[(field, Val.dict [("$gte", value)])]]
  else if operator = "lt" then [[(field, Val.dict [("$lt", value)])]]
  else if operator = "lte" then [[(field, Val.dict [("$lte", value)])]]
  else if operator = "ne" then [[(field, Val.dict [("$ne", value)])]]
  else if operator = "in" then
    [[(field, Val.dict [("$in", match value with | .list xs => Val.list xs | v => Val.list [v])])]]
  else if operator = "exists" then
    [[(field, Val.dict [("$exists", Val.bool (match value with
        | .bool b => b
        | .int n => n ≠ 0
        | .str s => s ≠ ""
        | .null => false
        | .list xs => xs ≠ []
        | .dict kvs => kvs ≠ []
        | .float q => q.num ≠ 0
        | .dt _ => true
        | .objectId _ => true))])]]
  else []

/-- `build_match_stage` from `ir_compiler.py`. -/
def build_match_stage (conditions : List Condition) (field_types : List (String × String)) :
    MDoc :=
  if conditions = [] then []
  else
    let and_conditions := conditions.foldl
      (fun acc c => acc ++ conditionFilter field_types c) ([] : List MDoc)
    match and_conditions with
    | [d] => d
    | ds => [("$and", Val.list (ds.map Val.dict))]

-- ---------------------------------------------------------------------------
-- difflib: SequenceMatcher.ratio and get_close_matches
-- ---------------------------------------------------------------------------

namespace PyFloat

/-- Exact fraction addition. -/
def add (a b : PyFloat) : PyFloat := ⟨a.num * (b.den : Int) + b.num * (a.den : Int), a.den * b.den⟩

/-- Exact division by a positive natural. -/
def divNat (a : PyFloat) (n : Nat) : PyFloat := ⟨a.num, a.den * n⟩

end PyFloat

/-- `b2j`-style index list: positions of `c` in `b` (increasing).  The
autojunk popularity filter of `difflib` only activates for strings of 200+
characters; the field names this repository resolves are far shorter, so it
is not modelled. -/
def b2jIxs (b : List Char) (c : Char) : List Nat :=
  (b.enum.filter (fun p => p.2 = c)).map Prod.fst

/-- `SequenceMatcher.find_longest_match(0, |a|, 0, |b|)` over whole strings
(no junk, see `b2jIxs`): returns `(besti, bestj, bestsize)`. -/
def findLongestMatch (a b : List Char) (alo ahi blo bhi : Nat) : Nat × Nat × Nat :=
  let r := (List.range (ahi - alo)).foldl (fun st d =>
    let i := alo + d
    let ai := a.getD i ' '
    let ixs := (b2jIxs b ai).filter (fun j => blo ≤ j ∧ j < bhi)
    let row := ixs.foldl (fun (acc : List (Nat × Nat) × (Nat × Nat × Nat)) j =>
      let k := (match st.1.find? (fun p => j = p.1 + 1) with
        | some p => p.2
        | none => 0) + 1
      let best := acc.2
      let best' := if k > best.2.2 then (i + 1 - k, j + 1 - k, k) else best
      (acc.1 ++ [(j, k)], best')) ([], st.2)
    (row.1, row.2)) (([] : List (Nat × Nat)), (alo, blo, 0))
  r.2

/-- Total size of all matching blocks (the recursion of
`get_matching_blocks`, fuel-bounded by the interval sizes). -/
def matchingTotal : Nat → List Char → List Char → Nat → Nat → Nat → Nat → Nat
  | 0, _, _, _, _, _, _ => 0
  | fuel + 1, a, b, alo, ahi, blo, bhi =>
    let r := findLongestMatch a b alo ahi blo bhi
    let i := r.1
    let j := r.2.1
    let k := r.2.2
    if k = 0 then 0
    else
      matchingTotal fuel a b alo i blo j + k +
      matchingTotal fuel a b (i + k) ahi (j + k) bhi

/-- `SequenceMatcher(None, a, b).ratio()` as an exact fraction
(`2 * M / (len(a) + len(b))`, or `1.0` when both are empty). -/
def sm_ratio (a b : String) : PyFloat :=
  let la := a.toList
  let lb := b.toList
  let total := la.length + lb.length
  if total = 0 then ⟨1, 1⟩
  else
    let m := matchingTotal (total + 1) la lb 0 la.length 0 lb.length
    ⟨(2 * m : Nat), total⟩

/-- Strict `<` on char lists (Python string comparison). -/
def charListLt : List Char → List Char → Bool
  | [], [] => false
  | [], _ :: _ => true
  | _ :: _, [] => false
  | a :: as, b :: bs => if a = b then charListLt as bs else decide (a < b)

/-- Descending comparison on `(score, string)` pairs, as `heapq.nlargest`
orders Python tuples (larger score first, ties broken by the larger string). -/
def pairGt (p q : PyFloat × String) : Bool :=
  if PyFloat.lt q.1 p.1 then true
  else if PyFloat.lt p.1 q.1 then false
  else charListLt q.2.toList p.2.toList

/-- Insertion into a descending-sorted list. -/
def insertDesc (x : PyFloat × String) : List (PyFloat × String) → List (PyFloat × String)
  | [] => [x]
  | y :: ys => if pairGt x y then x :: y :: ys else y :: insertDesc x ys

/-- `difflib.get_close_matches(word, possibilities, n, cutoff)`.  The
`real_quick_ratio`/`quick_ratio` pre-filters are upper bounds of `ratio` and
therefore drop nothing that the `ratio >= cutoff` test keeps. -/
def get_close_matches (word : String) (possibilities : List String) (n : Nat)
    (cutoff : PyFloat) : List String :=
  let result := possibilities.filterMap (fun x =>
    let r := sm_ratio x word
    if cutoff.le r then some (r, x) else none)
  ((result.foldl (fun acc p => insertDesc p acc) []).take n).map Prod.snd

-- ---------------------------------------------------------------------------
-- ir_validator.py — field resolution and IR validation
-- ---------------------------------------------------------------------------

/-- `ALLOWED_OPERATORS` from `ir_validator.py`. -/
def ALLOWED_OPERATORS : List String :=
  ["eq", "gt", "lt", "gte", "lte", "in", "ne", "exists", "contains"]

/-- `MAX_LIMIT` from `ir_validator.py`. -/
def MAX_LIMIT : Int := 100

/-- `af.rsplit(".", 1)[-1]`: the substring after the last dot. -/
def lastSegment (s : String) : String :=
  String.mk ((s.toList.reverse.takeWhile (fun c => c ≠ '.')).reverse)

/-- Split on every dot, keeping empty pieces (Python `str.split(".")`). -/
def splitOnDot (s : String) : List String :=
  let step := s.toList.foldl (fun (acc : List String × List Char) c =>
    if c = '.' then (acc.1 ++ [String.mk acc.2.reverse], [])
    else (acc.1, c :: acc.2)) ([], [])
  step.1 ++ [String.mk step.2.reverse]

/-- Replace every space by a dot (`uf.replace(" ", ".")`). -/
def spacesToDots (s : String) : String :=
  String.mk (s.toList.map (fun c => if c = ' ' then '.' else c))

/-- Step 1 of `resolve_field_name`: exact case-insensitive match. -/
def resolveExact (uf_lower : String) (allowed_fields : List String) : Option String :=
  allowed_fields.find? (fun af => pyLower af = uf_lower)

/-- Step 2 of `resolve_field_name`: dot-suffix (last-segment) match; one or
more matches both return the first (ambiguity is logged, not rejected). -/
def resolveSuffix (uf_lower : String) (allowed_fields : List String) : Option String :=
  (allowed_fields.filter (fun af =>
    strContains af "." ∧ pyLower (lastSegment af) = uf_lower)).head?

/-- Step 3 of `resolve_field_name`: multi-segment fuzzy match (average
segment similarity at least 0.80, best score wins; candidates scanned in
catalog order with a strict improvement test, so the first best wins). -/
def resolveMultiFuzzy (uf_lower : String) (allowed_fields : List String) : Option String :=
  if strContains uf_lower "." then
    let user_segments := splitOnDot uf_lower
    let r := allowed_fields.foldl
      (fun (acc : Option String × PyFloat) af =>
        if ¬ strContains af "." then acc
        else
          let af_segments := splitOnDot (pyLower af)
          if user_segments.length ≠ af_segments.length then acc
          else
            let scores := (user_segments.zip af_segments).map (fun p => sm_ratio p.1 p.2)
            let avg := (scores.foldl PyFloat.add ⟨0, 1⟩).divNat scores.length
            if PyFloat.le ⟨8, 10⟩ avg ∧ PyFloat.lt acc.2 avg then (some af, avg) else acc)
      (none, ⟨0, 1⟩)
    r.1
  else none

/-- The `candidate_map` of step 4: lowered full paths map to themselves
(later duplicates overwrite), lowered last segments are added only when not
already present (full paths are preferred). -/
def candidateMap (allowed_fields : List String) : List (String × String) :=
  allowed_fields.foldl (fun m af =>
    let m1 :=
      if m.any (fun p => p.1 = pyLower af) then
        m.map (fun p => if p.1 = pyLower af then (p.1, af) else p)
      else m ++ [(pyLower af, af)]
    if strContains af "." then
      let seg := pyLower (lastSegment af)
      if m1.any (fun p => p.1 = seg) then m1 else m1 ++ [(seg, af)]
    else m1) []

/-- Step 4 of `resolve_field_name`: single-token fuzzy match through
`get_close_matches` over the candidate map's keys (threshold 0.80). -/
def resolveFuzzy (uf_lower : String) (allowed_fields : List String) : Option String :=
  let cmap := candidateMap allowed_fields
  match get_close_matches uf_lower (cmap.map Prod.fst) 1 ⟨8, 10⟩ with
  | [] => none
  | k :: _ => (cmap.find? (fun p => p.1 = k)).map Prod.snd

/-- Steps 2–4 of the cascade. -/
def resolveRest (uf_lower : String) (allowed_fields : List String) : Option String :=
  (resolveSuffix uf_lower allowed_fields).orElse fun _ =>
  (resolveMultiFuzzy uf_lower allowed_fields).orElse fun _ =>
  resolveFuzzy uf_lower allowed_fields

/-- `resolve_field_name` from `ir_validator.py`.  The space→dot retry calls
the function recursively on a string containing no spaces, which is exactly
one more pass of steps 1–4 on the dotted name, spelled out here. -/
def resolve_field_name (user_field : String) (allowed_fields : List String) : Option String :=
  let uf := pyStrip user_field
  let uf_lower := pyLower uf
  (resolveExact uf_lower allowed_fields).orElse fun _ =>
  (if strContains uf " " then
      let dj := spacesToDots uf
      let djl := pyLower (pyStrip dj)
      (resolveExact djl allowed_fields).orElse fun _ => resolveRest djl allowed_fields
    else none).orElse fun _ =>
  resolveRest uf_lower allowed_fields

/-- Join strings with a separator. -/
def joinSep (sep : String) : List String → String
  | [] => ""
  | [x] => x
  | x :: xs => x ++ sep ++ joinSep sep xs

/-- `_suggest_field` from `ir_validator.py`. -/
def _suggest_field (field : String) (allowed_fields : List String) : String :=
  let candidates := allowed_fields ++
    (allowed_fields.filter (fun f => strContains f ".")).map lastSegment
  let close_ms := get_close_matches (pyLower field) (candidates.map pyLower) 3 ⟨5, 10⟩
  if close_ms ≠ [] then
    let suggestions := close_ms.foldl (fun acc m =>
      allowed_fields.foldl (fun acc2 af =>
        if (pyLower af = m ∨ (strContains af "." ∧ pyLower (lastSegment af) = m)) ∧
            ¬ acc2.contains af then
          acc2 ++ [af]
        else acc2) acc) []
    if suggestions ≠ [] then " Did you mean: " ++ joinSep ", " suggestions ++ "?"
    else ""
  else ""

/-- IR aggregation (`{type, field}`). -/
structure Aggregation where
  type : String
  field : Option String
deriving DecidableEq, Repr

/-- IR sort (`{field, direction}`). -/
structure SortSpec where
  field : String
  direction : String
deriving DecidableEq, Repr

/-- The parser's advisory `meta` block. -/
structure MetaInfo where
  confidence : PyFloat
  needs_clarification : Bool
deriving DecidableEq, Repr

/-- The intermediate representation produced by the parsers and consumed by
validator and compiler. -/
structure IR where
  operation : String
  conditions : List Condition
  aggregation : Option Aggregation
  sort : Option SortSpec
  limit : Option Int
  projection : Option (List String)
  meta : Option MetaInfo
deriving DecidableEq, Repr

deriving instance DecidableEq for Except

/-- Python truthiness of an optional string (`None` and `""` are falsy). -/
def truthyOptStr : Option String → Bool
  | none => false
  | some s => s ≠ ""

/-- The field-not-found error text of `validate_ir`. -/
def fieldErr (what raw : String) (allowed_fields : List String) : String :=
  what ++ " " ++ aposS ++ raw ++ aposS ++ " not found in collection." ++
    _suggest_field raw allowed_fields

/-- The per-condition resolve/allow-list loop of `validate_ir`. -/
def validateConditions (allowed_fields : List String) :
    List Condition → Except String (List Condition)
  | [] => .ok []
  | c :: rest =>
    match resolve_field_name c.field allowed_fields with
    | none => .error (fieldErr "Field" c.field allowed_fields)
    | some r =>
      if ALLOWED_OPERATORS.contains c.operator then
        match validateConditions allowed_fields rest with
        | .ok cs => .ok ({ c with field := r } :: cs)
        | .error e => .error e
      else .error ("Operator " ++ aposS ++ c.operator ++ aposS ++ " not allowed")

/-- The projection loop of `validate_ir`. -/
def validateProjection (allowed_fields : List String) :
    List String → Except String (List String)
  | [] => .ok []
  | pf :: rest =>
    match resolve_field_name pf allowed_fields with
    | none => .error (fieldErr "Projection field" pf allowed_fields)
    | some r =>
      match validateProjection allowed_fields rest with
      | .ok ps => .ok (r :: ps)
      | .error e => .error e

/-- `validate_ir` from `ir_validator.py`: resolve every condition,
aggregation, sort and projection field against the catalog (rewriting to the
canonical path), enforce the operator allow-list, and clamp `limit` to
`MAX_LIMIT`.  `agg.get("field")` and `sort.get("field")` are Python
truthiness tests, so an empty-string field is skipped, while `None` means
no reference. -/
def validate_ir (ir : IR) (allowed_fields : List String) : Except String IR := do
  let conds ← validateConditions allowed_fields ir.conditions
  let agg ←
    match ir.aggregation with
    | none => pure none
    | some a =>
      if truthyOptStr a.field then
        match a.field with
        | some f =>
          match resolve_field_name f allowed_fields with
          | none => throw (fieldErr "Aggregation field" f allowed_fields)
          | some r => pure (some { a with field := some r })
        | none => pure (some a)
      else pure (some a)
  let sort ←
    match ir.sort with
    | none => pure none
    | some s =>
      if s.field ≠ "" then
        match resolve_field_name s.field allowed_fields with
        | none => throw (fieldErr "Sort field" s.field allowed_fields)
        | some r => pure (some { s with field := r })
      else pure (some s)
  let proj ←
    match ir.projection with
    | none => pure none
    | some ps =>
      if ps ≠ [] then
        match validateProjection allowed_fields ps with
        | .ok rs => pure (some rs)
        | .error e => throw e
      else pure (some ps)
  let limit :=
    match ir.limit with
    | some l => some (if l > MAX_LIMIT then MAX_LIMIT else l)
    | none => none
  pure { ir with conditions := conds, aggregation := agg, sort := sort,
                 projection := proj, limit := limit }

-- ---------------------------------------------------------------------------
-- llm_parser.py — post-LLM value sanitisation (conditions slice)
-- ---------------------------------------------------------------------------

/-- The condition loop of `_sanitize_ir_values` from `llm_parser.py`:
drop conditions naming unknown fields (up to case / last-segment aliasing),
convert `contains` to `eq` on date-typed fields, and coerce stringified
numbers on numeric fields. -/
def sanitizeConditions (allowed_fields : List String)
    (field_types : List (String × String)) (conds : List Condition) : List Condition :=
  let allowed_lower := allowed_fields.map pyLower
  let last_segments := (allowed_fields.filter (fun f => strContains f ".")).map
    (fun f => pyLower (lastSegment f))
  conds.foldl (fun acc cond =>
    let fl := pyLower cond.field
    if ¬ (allowed_lower.contains fl ∨ last_segments.contains fl) then acc
    else
      let ftype := sdictGet field_types cond.field
      let cond1 :=
        if ftype = some "date" ∧ cond.operator = "contains" then
          { cond with operator := "eq" }
        else cond
      let cond2 :=
        if (ftype = some "int" ∨ ftype = some "float") ∧
            ["eq", "gt", "lt", "gte", "lte", "ne"].contains cond1.operator then
          match cond1.value with
          | .str v =>
            (match pyIntOfString v with
             | some n => { cond1 with value := .int n }
             | none =>
               match pyFloatOfString v with
               | some q => { cond1 with value := .float q }
               | none => cond1)
          | _ => cond1
        else cond1
      acc ++ [cond2]) []

-- ---------------------------------------------------------------------------
-- parser.py — keyword tables
-- ---------------------------------------------------------------------------

/-- `SHOW_KEYWORDS` (a Python set; membership is all that is used). -/
def SHOW_KEYWORDS : List String :=
  ["show", "list", "find", "get", "display", "fetch", "all", "select",
   "what", "which", "give", "tell", "return", "retrieve", "pull",
   "please", "can", "could", "want", "need", "see",
   "who", "when", "where", "how"]

/-- JSON whitespace. -/
def isJsonWs (c : Char) : Bool := c = ' ' ∨ c = '\t' ∨ c = '\n' ∨ c = '\r'

/-- JSON string body after the opening quote (strict: raw control
characters are rejected; `\u` escapes for astral code points via surrogate
pairs are out of scope for the inputs this system sees). -/
def jsonStringAux : List Char → List Char → Option (String × List Char)
  | [], _ => none
  | '"' :: rest, acc => some (String.mk acc.reverse, rest)
  | '\\' :: rest, acc =>
    (match rest with
     | '"' :: r => jsonStringAux r ('"' :: acc)
     | '\\' :: r => jsonStringAux r ('\\' :: acc)
     | '/' :: r => jsonStringAux r ('/' :: acc)
     | 'n' :: r => jsonStringAux r ('\n' :: acc)
     | 't' :: r => jsonStringAux r ('\t' :: acc)
     | 'r' :: r => jsonStringAux r ('\r' :: acc)
     | 'b' :: r => jsonStringAux r (Char.ofNat 8 :: acc)
     | 'f' :: r => jsonStringAux r (Char.ofNat 12 :: acc)
     | 'u' :: h1 :: h2 :: h3 :: h4 :: r =>
       let hv := fun (c : Char) =>
         if isAsciiDigit c then some (c.toNat - 48)
         else if 'a' ≤ c ∧ c ≤ 'f' then some (c.toNat - 87)
         else if 'A' ≤ c ∧ c ≤ 'F' then some (c.toNat - 55)
         else none
       match hv h1, hv h2, hv h3, hv h4 with
       | some a, some b, some c, some d =>
         jsonStringAux r (Char.ofNat (((a * 16 + b) * 16 + c) * 16 + d) :: acc)
       | _, _, _, _ => none
     | _ => none)
  | c :: rest, acc => if c.toNat < 32 then none else jsonStringAux rest (c :: acc)

/-- JSON number (strict grammar: no leading `+`, no leading zeros). -/
def jsonNumber (s : List Char) : Option (Val × List Char) :=
  let (negS, r0) : Bool × List Char :=
    match s with
    | '-' :: r => (true, r)
    | r => (false, r)
  let ip := r0.takeWhile isAsciiDigit
  if ip = [] then none
  else if ip.length > 1 ∧ ip.headD '0' = '0' then none
  else
    let r1 := r0.drop ip.length
    let (fp, r2) : List Char × List Char :=
      match r1 with
      | '.' :: r => (r.takeWhile isAsciiDigit, r.drop (r.takeWhile isAsciiDigit).length)
      | r => ([], r)
    if r1.headD ' ' = '.' ∧ fp = [] then none
    else
      let (hasExp, eneg, eds, r3) : Bool × Bool × List Char × List Char :=
        match r2 with
        | 'e' :: '-' :: r => (true, true, r.takeWhile isAsciiDigit, r.drop (r.takeWhile isAsciiDigit).length)
        | 'e' :: '+' :: r => (true, false, r.takeWhile isAsciiDigit, r.drop (r.takeWhile isAsciiDigit).length)
        | 'e' :: r => (true, false, r.takeWhile isAsciiDigit, r.drop (r.takeWhile isAsciiDigit).length)
        | 'E' :: '-' :: r => (true, true, r.takeWhile isAsciiDigit, r.drop (r.takeWhile isAsciiDigit).length)
        | 'E' :: '+' :: r => (true, false, r.takeWhile isAsciiDigit, r.drop (r.takeWhile isAsciiDigit).length)
        | 'E' :: r => (true, false, r.takeWhile isAsciiDigit, r.drop (r.takeWhile isAsciiDigit).length)
        | r => (false, false, [], r)
      if hasExp ∧ eds = [] then none
      else
        let sign : Int := if negS then -1 else 1
        if fp = [] ∧ ¬ hasExp then some (.int (sign * (digitsToNat ip : Int)), r2)
        else
          let mant : PyFloat :=
            ⟨sign * ((digitsToNat ip * 10 ^ fp.length + digitsToNat fp : Nat) : Int),
             10 ^ fp.length⟩
          let q :=
            if ¬ hasExp then mant
            else if eneg then ⟨mant.num, mant.den * 10 ^ digitsToNat eds⟩
            else ⟨mant.num * ((10 : Int) ^ digitsToNat eds), mant.den⟩
          some (.float q, r3)

mutual

/-- JSON value (fuel-bounded for nesting). -/
def jsonValueF : Nat → List Char → Option (Val × List Char)
  | 0, _ => none
  | fuel + 1, s =>
    let s := s.dropWhile isJsonWs
    match s with
    | '"' :: rest => (jsonStringAux rest []).map (fun p => (.str p.1, p.2))
    | 't' :: 'r' :: 'u' :: 'e' :: rest => some (.bool true, rest)
    | 'f' :: 'a' :: 'l' :: 's' :: 'e' :: rest => some (.bool false, rest)
    | 'n' :: 'u' :: 'l' :: 'l' :: rest => some (.null, rest)
    | '[' :: rest =>
      let rest1 := rest.dropWhile isJsonWs
      (match rest1 with
       | ']' :: r => some (.list [], r)
       | _ => (jsonListF fuel rest []).map (fun p => (.list p.1, p.2)))
    | c :: rest =>
      if c = Char.ofNat 123 then
        let rest1 := rest.dropWhile isJsonWs
        (match rest1 with
         | '"' :: _ => (jsonObjF fuel rest []).map (fun p => (.dict p.1, p.2))
         | r =>
           if r.headD ' ' = Char.ofNat 125 then some (.dict [], r.drop 1) else none)
      else jsonNumber (c :: rest)
    | [] => none

/-- JSON list elements after `[` (fuel-bounded). -/
def jsonListF : Nat → List Char → List Val → Option (List Val × List Char)
  | 0, _, _ => none
  | fuel + 1, s, acc =>
    match jsonValueF fuel s with
    | none => none
    | some (v, rest) =>
      let rest := rest.dropWhile isJsonWs
      match rest with
      | ']' :: r => some (acc ++ [v], r)
      | ',' :: r => jsonListF fuel r (acc ++ [v])
      | _ => none

/-- JSON object members after the opening brace (fuel-bounded). -/
def jsonObjF : Nat → List Char → List (String × Val) → Option (List (String × Val) × List Char)
  | 0, _, _ => none
  | fuel + 1, s, acc =>
    let s := s.dropWhile isJsonWs
    match s with
    | '"' :: rest =>
      (match jsonStringAux rest [] with
       | none => none
       | some (k, rest1) =>
         let rest1 := rest1.dropWhile isJsonWs
         match rest1 with
         | ':' :: rest2 =>
           (match jsonValueF fuel rest2 with
            | none => none
            | some (v, rest3) =>
              let rest3 := rest3.dropWhile isJsonWs
              match rest3 with
              | ',' :: r => jsonObjF fuel r (acc ++ [(k, v)])
              | c :: r => if c = Char.ofNat 125 then some (acc ++ [(k, v)], r) else none
              | [] => none)
         | _ => none)
    | _ => none

end

/-- The final accept/reject decision of `parse_to_ir` (lines 1404–1430):
an aggregate without a resolved aggregation is rejected; a find with no
conditions needs a show/list keyword, a limit or a sort; an accepted
no-condition find defaults its limit to 20. -/
def finalize (words : List String) (operation : String) (conditions : List Condition)
    (aggregation : Option Aggregation) (sort : Option SortSpec) (limit : Option Int)
    (projection : Option (List String)) : Option IR :=
  if operation = "aggregate" ∧ aggregation = none then none
  else
    let has_show := words.any (fun w => SHOW_KEYWORDS.contains w)
    if conditions = [] ∧ operation = "find" ∧
        ¬ (has_show ∨ limit ≠ none ∨ sort ≠ none) then none
    else
      let limit' :=
        if limit = none ∧ operation = "find" ∧ conditions = [] then some 20 else limit
      some { operation := operation, conditions := conditions, aggregation := aggregation,
             sort := sort, limit := limit', projection := projection,
             meta := some ⟨if conditions ≠ [] ∨ aggregation ≠ none then ⟨9, 10⟩ else ⟨6, 10⟩,
                           false⟩ }

-- ---------------------------------------------------------------------------
-- parse_to_ir — aggregation detection, the "in <value>" stage, and the spine
-- ---------------------------------------------------------------------------

/-- Read an escaped-literal regex body (the shape `re.escape` emits, with an
optional final `$` anchor) back into its literal character list; a bare
special character (one `re.escape` would have escaped) means the pattern is
outside this fragment and yields `none`.  Returns `(literal, end_anchored)`. -/
def regexLit : List Char → Option (List Char × Bool)
  | [] => some ([], false)
  | ['$'] => some ([], true)
  | '\\' :: c :: rest => (regexLit rest).map (fun p => (c :: p.1, p.2))
  | c :: rest =>
      if _re_special.contains c then none
      else (regexLit rest).map (fun p => (c :: p.1, p.2))

/-- Bool-valued substring test on char lists. -/
def listInfix (n h : List Char) : Bool :=
  (List.range (h.length + 1)).any (fun i => n.isPrefixOf (h.drop i))

/-- The matching relation of a MongoDB `$regex` filter, for the
escaped-literal patterns this compiler emits (spec: an anchored pattern
`^…$` must match the whole stored value, an unanchored one matches any
substring, and option `i` compares case-insensitively).  `none` when the
pattern is not an escaped literal with optional anchors. -/
def mongoRegexMatch (pattern opts s : String) : Option Bool :=
  let cs := pattern.toList
  let anchS := cs.head? = some '^'
  let body := if anchS then cs.tail else cs
  match regexLit body with
  | none => none
  | some (lit, anchE) =>
    let tr := fun (l : List Char) => if strContains opts "i" then l.map Char.toLower else l
    let L := tr lit
    let S := tr s.toList
    some (if anchS then
            if anchE then S == L else L.isPrefixOf S
          else
            if anchE then L.reverse.isPrefixOf S.reverse
            else listInfix L S)

/-- Case-insensitive whole-string equality (the semantics the spec assigns
to `eq` on a plain string field). -/
def ciEqualStr (a b : String) : Bool :=
  a.toList.map Char.toLower == b.toList.map Char.toLower

/-- Case-insensitive substring containment (the semantics the spec assigns
to `contains` and to `eq` on partial-match fields). -/
def ciContainsStr (hay needle : String) : Bool :=
  listInfix (needle.toList.map Char.toLower) (hay.toList.map Char.toLower)

/-- The identifier disjunction described by the spec sentence for `eq` on
`_id` (as amended): the text as the given string, as an integer when it is
integer-parseable, and as the 24-hex-character identifier type when it has
that shape — wrapped in `$or` unless a single candidate remains. -/
def idDisjunctionSpec (v : String) : MDoc :=
  let cands : List MDoc :=
    [[("_id", Val.str v)]] ++
    (match pyIntOfString v with | some n => [[("_id", Val.int n)]] | none => []) ++
    (if isObjectIdHex v then [[("_id", Val.objectId v)]] else [])
  match cands with
  | [c] => c
  | cs => [("$or", Val.list (cs.map Val.dict))]

-- ---------------------------------------------------------------------------
-- Helper lemmas
-- ---------------------------------------------------------------------------

theorem orElse_some {α : Type} {a : Option α} {f : Unit → Option α} {x : α}
    (h : a.orElse f = some x) : a = some x ∨ (a = none ∧ f () = some x) := by
  cases a with
  | none => exact Or.inr ⟨rfl, h⟩
  | some y => exact Or.inl h

theorem head?_mem {α : Type} {l : List α} {a : α} (h : l.head? = some a) : a ∈ l := by
  cases l with
  | nil => cases h
  | cons x xs =>
      simp only [List.head?_cons, Option.some.injEq] at h
      subst h
      exact List.mem_cons_self x xs

/-- The escaping step of `re_escape`, with an arbitrary continuation. -/
theorem escFoldrAppend (cs : List Char) (t : List Char) :
    (cs.foldr (fun c acc => if _re_special.contains c then '\\' :: c :: acc else c :: acc) []) ++ t
      = cs.foldr (fun c acc => if _re_special.contains c then '\\' :: c :: acc else c :: acc) t := by
  induction cs with
  | nil => rfl
  | cons c cs ih =>
      simp only [List.foldr_cons]
      by_cases hc : _re_special.contains c = true
      · rw [if_pos hc, if_pos hc, List.cons_append, List.cons_append, ih]
      · rw [if_neg hc, if_neg hc, List.cons_append, ih]

theorem regexLit_cons_escaped (c : Char) (t : List Char) :
    regexLit ('\\' :: c :: t) = (regexLit t).map (fun p => (c :: p.1, p.2)) := rfl

theorem regexLit_cons_nonspecial (c : Char) (t : List Char)
    (h : _re_special.contains c = false) :
    regexLit (c :: t) = (regexLit t).map (fun p => (c :: p.1, p.2)) := by
  have h' : c ∉ _re_special := by simpa using h
  rw [regexLit.eq_def]
  split
  · rename_i heq; cases heq
  · rename_i heq
    injection heq with h1 h2
    subst h1
    exact absurd (by decide : ('$' : Char) ∈ _re_special) h'
  · rename_i heq
    injection heq with h1 h2
    subst h1
    exact absurd (by decide : ('\\' : Char) ∈ _re_special) h'
  · rename_i heq
    injection heq with h1 h2
    subst h1; subst h2
    simp [h']

/-- `regexLit` reads back exactly what `re.escape` emitted, with the
end-anchor recorded from the continuation. -/
theorem regexLit_escFoldr (cs : List Char) (t : List Char) (lit : List Char) (e : Bool)
    (h : regexLit t = some (lit, e)) :
    regexLit (cs.foldr (fun c acc => if _re_special.contains c then '\\' :: c :: acc else c :: acc) t)
      = some (cs ++ lit, e) := by
  induction cs with
  | nil => simpa using h
  | cons c cs ih =>
      simp only [List.foldr_cons]
      by_cases hc : _re_special.contains c = true
      · rw [if_pos hc, regexLit_cons_escaped, ih]
        rfl
      · rw [if_neg hc, regexLit_cons_nonspecial c _ (by simpa using hc), ih]
        rfl

theorem esc_head_ne_caret (cs : List Char) :
    (cs.foldr (fun c acc => if _re_special.contains c then '\\' :: c :: acc else c :: acc) []).head?
      ≠ some '^' := by
  cases cs with
  | nil => simp
  | cons c cs =>
      simp only [List.foldr_cons]
      by_cases hc : _re_special.contains c = true
      · rw [if_pos hc]
        simp only [List.head?_cons, ne_eq, Option.some.injEq]
        decide
      · rw [if_neg hc]
        simp only [List.head?_cons, ne_eq, Option.some.injEq]
        intro h
        subst h
        exact absurd hc (by decide)

/-- Anchored case-insensitive pattern: `^re.escape(v)$` with option `i`
matches exactly the case-insensitive equals of `v`. -/
theorem mongoRegexMatch_anchored (v s : String) :
    mongoRegexMatch ("^" ++ re_escape v ++ "$") "i" s = some (ciEqualStr s v) := by
  have hdata : ("^" ++ re_escape v ++ "$").toList
      = '^' :: (v.toList.foldr (fun c acc =>
          if _re_special.contains c then '\\' :: c :: acc else c :: acc) ['$']) := by
    show ("^" ++ re_escape v ++ "$").data = _
    rw [String.data_append, String.data_append]
    rw [← escFoldrAppend]
    rfl
  have h1 := regexLit_escFoldr v.toList ['$'] [] true rfl
  have hi : strContains "i" "i" = true := by decide
  simp only [mongoRegexMatch, hdata, List.head?_cons, List.tail_cons]
  simp at h1
  simp [h1, hi, ciEqualStr]

/-- Unanchored case-insensitive pattern: `re.escape(v)` with option `i`
matches exactly the case-insensitive substring containment of `v`. -/
theorem mongoRegexMatch_unanchored (v s : String) :
    mongoRegexMatch (re_escape v) "i" s = some (ciContainsStr s v) := by
  have hdata : (re_escape v).toList
      = v.toList.foldr (fun c acc =>
          if _re_special.contains c then '\\' :: c :: acc else c :: acc) [] := rfl
  have hne := esc_head_ne_caret v.toList
  have h1 := regexLit_escFoldr v.toList [] [] false rfl
  have hi : strContains "i" "i" = true := by decide
  simp only [mongoRegexMatch, hdata]
  simp at h1 hne
  simp [h1, hne, hi, ciContainsStr]

theorem dropWhile_all_neg {p : Char → Bool} {l : List Char}
    (h : ∀ c ∈ l, p c = false) : l.dropWhile p = l := by
  cases l with
  | nil => rfl
  | cons c cs =>
      rw [List.dropWhile_cons, h c (List.mem_cons_self c cs)]
      simp

theorem takeWhile_all_pos {p : Char → Bool} {l : List Char}
    (h : ∀ c ∈ l, p c = true) : l.takeWhile p = l := by
  induction l with
  | nil => rfl
  | cons c cs ih =>
      rw [List.takeWhile_cons, h c (List.mem_cons_self c cs)]
      simp only [if_true]
      rw [ih (fun b hb => h b (List.mem_cons_of_mem c hb))]

theorem isPyWs_of_digit {c : Char} (h : isAsciiDigit c = true) : isPyWs c = false := by
  cases hw : isPyWs c with
  | false => rfl
  | true =>
      exfalso
      simp only [isPyWs, decide_eq_true_eq] at hw
      rcases hw with rfl | rfl | rfl | rfl | rfl | rfl <;> exact absurd h (by decide)

/-- A string whose characters are minus signs and digits is untouched by
`str.strip()`. -/
theorem pyStrip_no_ws {v : String} (h : ∀ c ∈ v.toList, isPyWs c = false) :
    pyStrip v = v := by
  unfold pyStrip
  rw [dropWhile_all_neg h]
  rw [dropWhile_all_neg (fun c hc => h c (List.mem_reverse.1 hc))]
  rw [List.reverse_reverse]
  rfl

theorem strFind_dot_none {v : String} (hdot : '.' ∉ v.toList) :
    strFind v "." = none := by
  rw [strFind, List.find?_eq_none]
  intro i _
  simp only [decide_eq_true_eq]
  intro hcontra
  have hmem : '.' ∈ (v.toList.drop i).take ("." : String).length := by
    rw [hcontra]; exact List.mem_cons_self _ _
  exact hdot (List.drop_subset i v.toList (List.take_subset _ _ hmem))

theorem stripFirstDot_no_dot (v : String) (hdot : '.' ∉ v.toList) :
    stripFirstDot v = v := by
  rw [stripFirstDot, strFind_dot_none hdot]

/-- A fraction with denominator 1 always equals its own truncation. -/
theorem eqInt_den_one (n : Int) : PyFloat.eqInt ⟨n, 1⟩ = true := by
  simp only [PyFloat.eqInt, PyFloat.trunc]
  split <;> simp <;> omega

/-- The sign-consuming head match of `pyFloatOfString`, on a list whose head
is neither sign character. -/
theorem floatSignMatch_default (d : Char) (ds : List Char) (h1 : d ≠ '-') (h2 : d ≠ '+') :
    (match d :: ds with
      | '-' :: r => ((-1 : Int), r)
      | '+' :: r => ((1 : Int), r)
      | r => ((1 : Int), r)) = ((1 : Int), d :: ds) := by
  split
  · rename_i heq
    injection heq with ha hb
    exact absurd ha h1
  · rename_i heq
    injection heq with ha hb
    exact absurd ha h2
  · rfl

/-- On a minus-signs-then-digits string with no dot, Python `float` either
fails or returns an integral value (denominator 1): the float candidate of
`_build_id_filter` can then never survive its non-integral guard. -/
theorem pyFloat_digitish (v : String) (hd : pyIsDigit (lstripMinus v) = true) :
    pyFloatOfString v = none ∨ ∃ n : Int, pyFloatOfString v = some ⟨n, 1⟩ := by
  have hsplit := List.takeWhile_append_dropWhile (p := fun c => c = '-') (l := v.toList)
  have hldig : (v.toList.dropWhile (fun c => c = '-')).all isAsciiDigit = true := by
    rw [lstripMinus] at hd
    simp only [pyIsDigit, decide_eq_true_eq] at hd
    exact hd.2
  have hlne : v.toList.dropWhile (fun c => c = '-') ≠ [] := by
    intro hnil
    rw [lstripMinus, hnil] at hd
    exact absurd hd (by decide)
  have hnws : ∀ c ∈ v.toList, isPyWs c = false := by
    intro c hc
    rw [← hsplit] at hc
    rcases List.mem_append.1 hc with h1 | h2
    · have := List.mem_takeWhile_imp h1
      simp only [decide_eq_true_eq] at this
      subst this
      rfl
    · exact isPyWs_of_digit (List.all_eq_true.1 hldig c h2)
  have hstrip : pyStrip v = v := pyStrip_no_ws hnws
  simp only [pyFloatOfString, hstrip]
  rcases htw : v.toList.takeWhile (fun c => c = '-') with _ | ⟨m1, tw⟩
  · -- no leading minus: the whole string is digits
    have hv : v.toList = v.toList.dropWhile (fun c => c = '-') := by
      conv_lhs => rw [← hsplit]
      rw [htw, List.nil_append]
    rcases hl : v.toList.dropWhile (fun c => c = '-') with _ | ⟨d, ds⟩
    · exact absurd hl hlne
    have hall : ∀ c ∈ d :: ds, isAsciiDigit c = true := fun c hc =>
      List.all_eq_true.1 (hl ▸ hldig) c hc
    have hddig : isAsciiDigit d = true := hall d (List.mem_cons_self d ds)
    rw [hv, hl]
    rw [floatSignMatch_default d ds
      (fun h => absurd hddig (by rw [h]; decide))
      (fun h => absurd hddig (by rw [h]; decide))]
    simp only [takeWhile_all_pos hall, List.drop_length]
    refine Or.inr ⟨(digitsToNat (d :: ds) : Int), ?_⟩
    simp [digitsToNat]
  · -- at least one leading minus
    have hm1 : m1 = '-' := by
      have hmem : m1 ∈ v.toList.takeWhile (fun c => c = '-') := by
        rw [htw]; exact List.mem_cons_self m1 tw
      have := List.mem_takeWhile_imp hmem
      simpa using this
    subst hm1
    rcases tw with _ | ⟨m2, tw2⟩
    · -- exactly one minus, then digits
      have hv : v.toList = '-' :: v.toList.dropWhile (fun c => c = '-') := by
        conv_lhs => rw [← hsplit]
        rw [htw]
        rfl
      rcases hl : v.toList.dropWhile (fun c => c = '-') with _ | ⟨d, ds⟩
      · exact absurd hl hlne
      have hall : ∀ c ∈ d :: ds, isAsciiDigit c = true := fun c hc =>
        List.all_eq_true.1 (hl ▸ hldig) c hc
      rw [hv, hl]
      simp only [takeWhile_all_pos hall, List.drop_length]
      refine Or.inr ⟨-(digitsToNat (d :: ds) : Int), ?_⟩
      simp [digitsToNat]
    · -- two or more minus signs: the mantissa is empty, float() fails
      have hm2 : m2 = '-' := by
        have hmem : m2 ∈ v.toList.takeWhile (fun c => c = '-') := by
          rw [htw]; exact List.mem_cons_of_mem _ (List.mem_cons_self m2 tw2)
        have := List.mem_takeWhile_imp hmem
        simpa using this
      subst hm2
      have hv : v.toList = '-' :: '-' :: (tw2 ++ v.toList.dropWhile (fun c => c = '-')) := by
        conv_lhs => rw [← hsplit]
        rw [htw]
        rfl
      rw [hv]
      simp [isAsciiDigit, List.takeWhile_cons]

-- ---------------------------------------------------------------------------
-- Claim C2 — the no-condition find gate
-- ---------------------------------------------------------------------------

/-- C2: for a find intent with zero conditions, the final decision of
`parse_to_ir` returns no IR exactly when the words carry no show/list keyword, no
explicit limit and no explicit sort; when such a find is accepted, a missing
limit defaults to 20. -/
theorem c2_no_condition_find_gate (words : List String) (agg : Option Aggregation)
    (sort : Option SortSpec) (limit : Option Int) (proj : Option (List String)) :
    (finalize words "find" [] agg sort limit proj = none ↔
      ¬ (words.any (fun w => SHOW_KEYWORDS.contains w) = true ∨ limit ≠ none ∨ sort ≠ none)) ∧
    (∀ ir, finalize words "find" [] agg sort limit proj = some ir →
      ir.limit = if limit = none then some 20 else limit) := by
  by_cases h : (words.any (fun w => SHOW_KEYWORDS.contains w) = true ∨ limit ≠ none ∨ sort ≠ none)
  · refine ⟨by simp [finalize, h], ?_⟩
    intro ir hir
    simp only [finalize] at hir
    rw [if_neg (by simp)] at hir
    rw [if_neg (by simp only [true_and]; exact not_not_intro h)] at hir
    injection hir with hir
    subst hir
    simp
  · refine ⟨by simp [finalize, h], ?_⟩
    intro ir hir
    simp only [finalize] at hir
    rw [if_neg (by simp)] at hir
    rw [if_pos (by exact ⟨trivial, trivial, h⟩)] at hir
    cases hir

theorem c2_no_condition_find_gate_app :
    finalize ["hello", "world"] "find" [] none none none none = none ∧
    finalize ["show", "users"] "find" [] none none none none =
      some { operation := "find", conditions := [], aggregation := none, sort := none,
             limit := some 20, projection := none,
             meta := some ⟨⟨6, 10⟩, false⟩ } ∧
    ({ operation := "find", conditions := [], aggregation := none, sort := none,
       limit := some 20, projection := none,
       meta := some ⟨⟨6, 10⟩, false⟩ } : IR).limit = some 20 := by
  refine ⟨(c2_no_condition_find_gate ["hello", "world"] none none none none).1.mpr (by decide),
    by decide, ?_⟩
  exact (c2_no_condition_find_gate ["show", "users"] none none none none).2 _ (by decide)

-- ---------------------------------------------------------------------------
-- Claim C3 — eq on a string-typed field
-- ---------------------------------------------------------------------------

/-- C3 counterexample: with the catalog typing the field as a plain string,
an `eq` whose value happens to be 24 hex characters is compiled to an exact
`ObjectId` equality, not to the case-insensitive anchored match the spec
promises for every string-typed field. -/
theorem c3_hex_eq_is_objectid :
    build_match_stage [⟨"ref", "eq", Val.str "507f191e810c19729de860ea"⟩] [("ref", "string")] =
      [("ref", Val.objectId "507f191e810c19729de860ea")] := by decide

/-- C3 (as corrected): for `eq` on a string-typed field other than `_id`,
with a value that is not 24 hex characters, the compiler emits the anchored
case-insensitive regex, and that regex matches a stored value exactly when
the stored value equals the query value up to case. -/
theorem c3_string_eq_anchored_ci (field : String) (ft : List (String × String)) (v s : String)
    (hid : field ≠ "_id") (hft : sdictGet ft field = some "string")
    (hhex : isObjectIdHex v = false) :
    build_match_stage [⟨field, "eq", Val.str v⟩] ft =
      [(field, Val.dict [("$regex", Val.str ("^" ++ re_escape v ++ "$")),
                         ("$options", Val.str "i")])] ∧
    mongoRegexMatch ("^" ++ re_escape v ++ "$") "i" s = some (ciEqualStr s v) := by
  refine ⟨?_, mongoRegexMatch_anchored v s⟩
  simp [build_match_stage, conditionFilter, _build_eq_filter, _case_insensitive_eq,
    _PARTIAL_MATCH_TYPES, hft, hid, hhex]

theorem c3_string_eq_anchored_ci_app :
    build_match_stage [⟨"name", "eq", Val.str "Alpha"⟩] [("name", "string")] =
      [("name", Val.dict [("$regex", Val.str ("^" ++ re_escape "Alpha" ++ "$")),
                          ("$options", Val.str "i")])] ∧
    mongoRegexMatch ("^" ++ re_escape "Alpha" ++ "$") "i" "alpha" = some true ∧
    mongoRegexMatch ("^" ++ re_escape "Alpha" ++ "$") "i" "ALPHA" = some true ∧
    mongoRegexMatch ("^" ++ re_escape "Alpha" ++ "$") "i" "xalphax" = some false := by
  refine ⟨(c3_string_eq_anchored_ci "name" [("name", "string")] "Alpha" "alpha"
      (by decide) (by decide) (by decide)).1,
    ((c3_string_eq_anchored_ci "name" [("name", "string")] "Alpha" "alpha"
      (by decide) (by decide) (by decide)).2).trans (by decide),
    ((c3_string_eq_anchored_ci "name" [("name", "string")] "Alpha" "ALPHA"
      (by decide) (by decide) (by decide)).2).trans (by decide),
    ((c3_string_eq_anchored_ci "name" [("name", "string")] "Alpha" "xalphax"
      (by decide) (by decide) (by decide)).2).trans (by decide)⟩

-- ---------------------------------------------------------------------------
-- Claim C5 — eq on a date-typed field widens to the whole day
-- ---------------------------------------------------------------------------

/-- C5: for `eq` on a date-typed field whose value parses to a date with no
time of day, the compiler emits the inclusive whole-day range
`gte` start-of-day / `lte` end-of-day, never an exact-instant equality. -/
theorem c5_date_eq_day_range (field : String) (ft : List (String × String)) (v : Val)
    (d : PyDateTime) (hft : sdictGet ft field = some "date")
    (hp : _parse_date_value v = Val.dt d)
    (h0 : d.hour = 0 ∧ d.minute = 0 ∧ d.second = 0) :
    build_match_stage [⟨field, "eq", v⟩] ft =
      [(field, Val.dict [("$gte", Val.dt d), ("$lte", Val.dt (dayEnd d))])] := by
  obtain ⟨hh, hm, hs⟩ := h0
  cases v <;>
    first
    | (simp [build_match_stage, conditionFilter, hft, hp, hh, hm, hs]; done)
    | (simp [_parse_date_value] at hp)

theorem c5_date_eq_day_range_app :
    build_match_stage [⟨"joined", "eq", Val.str "2024-03-01"⟩] [("joined", "date")] =
      [("joined", Val.dict [("$gte", Val.dt ⟨2024, 3, 1, 0, 0, 0, 0⟩),
                            ("$lte", Val.dt ⟨2024, 3, 1, 23, 59, 59, 999999⟩)])] :=
  c5_date_eq_day_range "joined" [("joined", "date")] (Val.str "2024-03-01")
    ⟨2024, 3, 1, 0, 0, 0, 0⟩ (by decide) (by decide) (by decide)

-- ---------------------------------------------------------------------------
-- Claim C7 — contains is an unanchored substring match
-- ---------------------------------------------------------------------------

/-- C7 counterexample: `contains` with a 24-hex value compiles to an exact
`ObjectId` filter, not to the case-insensitive substring regex the spec
promises for every `contains`; and in the rule-based path no upstream
conversion guards date fields — only the LLM sanitiser does. -/
theorem c7_hex_contains_is_objectid :
    build_match_stage [⟨"ref", "contains", Val.str "507f191e810c19729de860ea"⟩]
        [("ref", "string")] =
      [("ref", Val.objectId "507f191e810c19729de860ea")] := by decide

/-- C7 (as corrected): for `contains` with a non-24-hex string value on a
field the catalog does not type as date, the compiler emits the unanchored
case-insensitive regex, whose semantics is exactly case-insensitive
substring containment; and the LLM-path sanitiser rewrites `contains` to
`eq` on date-typed fields before compilation. -/
theorem c7_contains_substring_ci (field : String) (ft : List (String × String)) (v s : String)
    (hhex : isObjectIdHex v = false) (hdate : sdictGet ft field ≠ some "date") :
    build_match_stage [⟨field, "contains", Val.str v⟩] ft =
      [(field, Val.dict [("$regex", Val.str (re_escape v)), ("$options", Val.str "i")])] ∧
    mongoRegexMatch (re_escape v) "i" s = some (ciContainsStr s v) ∧
    (∀ (af : List String) (c : Condition),
      (af.map pyLower).contains (pyLower c.field) = true →
      sdictGet ft c.field = some "date" → c.operator = "contains" →
      sanitizeConditions af ft [c] = [{ c with operator := "eq" }]) := by
  refine ⟨?_, mongoRegexMatch_unanchored v s, ?_⟩
  · simp [build_match_stage, conditionFilter, _case_insensitive_contains, hdate, hhex]
  · intro af c h1 h2 h3
    simp [sanitizeConditions, h1, h2, h3]
    intro hall
    exfalso
    have hmem : pyLower c.field ∈ List.map pyLower af := by simpa using h1
    obtain ⟨x, hx, he⟩ := List.mem_map.1 hmem
    exact (hall x hx) he

theorem c7_contains_substring_ci_app :
    build_match_stage [⟨"name", "contains", Val.str "red"⟩]
        [("joined", "date"), ("name", "string")] =
      [("name", Val.dict [("$regex", Val.str (re_escape "red")), ("$options", Val.str "i")])] ∧
    mongoRegexMatch (re_escape "red") "i" "bright red car" = some true ∧
    sanitizeConditions ["joined"] [("joined", "date"), ("name", "string")]
        [⟨"joined", "contains", Val.str "2024-03-01"⟩] =
      [⟨"joined", "eq", Val.str "2024-03-01"⟩] := by
  have h := c7_contains_substring_ci "name" [("joined", "date"), ("name", "string")]
    "red" "bright red car" (by decide) (by decide)
  exact ⟨h.1, h.2.1.trans (by decide),
    h.2.2 ["joined"] ⟨"joined", "contains", Val.str "2024-03-01"⟩
      (by decide) (by decide) rfl⟩

-- ---------------------------------------------------------------------------
-- Claim C8 — merge-lattice monotonicity
-- ---------------------------------------------------------------------------

theorem find?_key_replace (k v : String) (m : List (String × String)) :
    (m.map (fun p => if p.1 = k then (k, v) else p)).find? (fun p => p.1 = k)
      = (m.find? (fun p => p.1 = k)).map (fun _ => (k, v)) := by
  induction m with
  | nil => rfl
  | cons p m ih =>
      by_cases h : p.1 = k
      · simp [h]
      · simp [h, ih]

theorem find?_key_append_none (k v : String) (m : List (String × String))
    (h : m.find? (fun p => p.1 = k) = none) :
    (m ++ [(k, v)]).find? (fun p => p.1 = k) = some (k, v) := by
  induction m with
  | nil => simp
  | cons p m ih =>
      by_cases hp : p.1 = k
      · rw [List.find?_cons_of_pos _ (by simpa using hp)] at h
        cases h
      · rw [List.find?_cons_of_neg _ (by simpa using hp)] at h
        rw [List.cons_append, List.find?_cons_of_neg _ (by simpa using hp)]
        exact ih h

theorem find?_key_replace_ne (k v k' : String) (hne : k' ≠ k)
    (m : List (String × String)) :
    (m.map (fun p => if p.1 = k then (k, v) else p)).find? (fun p => p.1 = k')
      = m.find? (fun p => p.1 = k') := by
  induction m with
  | nil => rfl
  | cons p m ih =>
      simp only [List.map_cons]
      by_cases h : p.1 = k
      · have hk' : ¬ ((k, v).1 = k') := fun hh => hne hh.symm
        have hp' : ¬ (p.1 = k') := fun hh => hne (hh.symm.trans h)
        rw [if_pos h]
        rw [List.find?_cons_of_neg _ (by simpa using hk'),
            List.find?_cons_of_neg _ (by simpa using hp'), ih]
      · rw [if_neg h]
        by_cases hp' : p.1 = k'
        · rw [List.find?_cons_of_pos _ (by simpa using hp'),
              List.find?_cons_of_pos _ (by simpa using hp')]
        · rw [List.find?_cons_of_neg _ (by simpa using hp'),
              List.find?_cons_of_neg _ (by simpa using hp'), ih]

theorem find?_key_append_ne (k v k' : String) (hne : k' ≠ k)
    (m : List (String × String)) :
    (m ++ [(k, v)]).find? (fun p => p.1 = k') = m.find? (fun p => p.1 = k') := by
  induction m with
  | nil =>
      simp only [List.nil_append]
      rw [List.find?_cons_of_neg _ (by simp only [decide_eq_true_eq]; exact fun hh => hne hh.symm)]
  | cons p m ih =>
      by_cases hp : p.1 = k'
      · rw [List.cons_append, List.find?_cons_of_pos _ (by simpa using hp),
            List.find?_cons_of_pos _ (by simpa using hp)]
      · rw [List.cons_append, List.find?_cons_of_neg _ (by simpa using hp),
            List.find?_cons_of_neg _ (by simpa using hp)]
        exact ih

theorem sdictGet_set_self (m : List (String × String)) (k v : String) :
    sdictGet (sdictSet m k v) k = some v := by
  rw [sdictSet]
  by_cases hm : m.any (fun p => p.1 = k) = true
  · rw [if_pos hm, sdictGet, find?_key_replace]
    obtain ⟨x, hx, hpx⟩ := List.any_eq_true.1 hm
    rcases hf : m.find? (fun p => p.1 = k) with _ | y
    · rw [List.find?_eq_none] at hf
      exact absurd hpx (hf x hx)
    · rw [hf]
      rfl
  · rw [if_neg hm, sdictGet, find?_key_append_none]
    · rfl
    · rw [List.find?_eq_none]
      intro x hx hc
      exact hm (List.any_eq_true.2 ⟨x, hx, hc⟩)

theorem sdictGet_set_ne (m : List (String × String)) (k v k' : String) (h : k' ≠ k) :
    sdictGet (sdictSet m k v) k' = sdictGet m k' := by
  rw [sdictSet, sdictGet, sdictGet]
  by_cases hm : m.any (fun p => p.1 = k) = true
  · rw [if_pos hm, find?_key_replace_ne k v k' h]
  · rw [if_neg hm, find?_key_append_ne k v k' h]

/-- A single lattice merge at the recorded key: overwritten exactly when the
new type has strictly higher precedence. -/
theorem merge_get_self (ft : List (String × String)) (key ftype t : String)
    (h : sdictGet ft key = some t) :
    sdictGet (_merge_field_type ft key ftype) key =
      some (if _type_priority t < _type_priority ftype then ftype else t) := by
  simp only [_merge_field_type, h, gt_iff_lt]
  by_cases hgt : _type_priority t < _type_priority ftype
  · rw [if_pos hgt, if_pos hgt, sdictGet_set_self]
  · rw [if_neg hgt, if_neg hgt, h]

/-- C8: merging per-document type observations is monotone in the precedence
lattice — an existing record is replaced only by a strictly
higher-precedence type, other keys are untouched, the recorded precedence
never decreases over any observation sequence, and the precedence levels
are the ones the spec lists. -/
theorem c8_merge_monotone (ft : List (String × String)) (key ftype : String) :
    (∀ t, sdictGet ft key = some t →
      sdictGet (_merge_field_type ft key ftype) key =
        some (if _type_priority t < _type_priority ftype then ftype else t)) ∧
    (∀ k, k ≠ key → sdictGet (_merge_field_type ft key ftype) k = sdictGet ft k) ∧
    (∀ (obs : List String) (t : String), sdictGet ft key = some t →
      ∃ u, sdictGet (obs.foldl (fun acc ty => _merge_field_type acc key ty) ft) key = some u ∧
        _type_priority t ≤ _type_priority u) ∧
    (_type_priority "object" = 5 ∧ _type_priority "array_of_objects" = 5 ∧
     _type_priority "array_of_strings" = 4 ∧ _type_priority "array_of_numbers" = 4 ∧
     _type_priority "array_mixed" = 3 ∧ _type_priority "date" = 2 ∧
     _type_priority "int" = 2 ∧ _type_priority "float" = 2 ∧
     _type_priority "string" = 1 ∧ _type_priority "bool" = 1 ∧
     _type_priority "unknown" = 0) := by
  refine ⟨fun t h => merge_get_self ft key ftype t h, ?_, ?_, by decide⟩
  · intro k hk
    rcases h : sdictGet ft key with _ | e
    · simp only [_merge_field_type, h]
      exact sdictGet_set_ne ft key ftype k hk
    · simp only [_merge_field_type, h, gt_iff_lt]
      by_cases hgt : _type_priority e < _type_priority ftype
      · rw [if_pos hgt]
        exact sdictGet_set_ne ft key ftype k hk
      · rw [if_neg hgt]
  · intro obs
    induction obs generalizing ft with
    | nil => exact fun t h => ⟨t, h, le_refl _⟩
    | cons ty obs ih =>
        intro t h
        have h1 := merge_get_self ft key ty t h
        obtain ⟨u, hu, hle⟩ := ih (_merge_field_type ft key ty) _ h1
        refine ⟨u, hu, le_trans ?_ hle⟩
        by_cases hgt : _type_priority t < _type_priority ty
        · rw [if_pos hgt]; exact le_of_lt hgt
        · rw [if_neg hgt]

theorem c8_merge_monotone_app :
    sdictGet (_merge_field_type [("a", "string")] "a" "int") "a" = some "int" ∧
    sdictGet (_merge_field_type [("a", "string")] "a" "int") "b" = none ∧
    (∃ u, sdictGet ((["int", "unknown"].foldl
        (fun acc ty => _merge_field_type acc "a" ty) [("a", "string")])) "a" = some u ∧
      _type_priority "string" ≤ _type_priority u) := by
  have h := c8_merge_monotone [("a", "string")] "a" "int"
  refine ⟨(h.1 "string" (by decide)).trans (by decide), ?_, ?_⟩
  · exact ((c8_merge_monotone [("a", "string")] "a" "int").2.1 "b" (by decide)).trans (by decide)
  · exact (c8_merge_monotone [("a", "string")] "a" "int").2.2.1 ["int", "unknown"] "string" (by decide)

-- ---------------------------------------------------------------------------
-- Schema inference never emits the identifier field
-- ---------------------------------------------------------------------------

theorem joinKey_ne_id (parent key : String) (h : ¬ (key = "_id" ∧ parent = "")) :
    joinKey parent key ≠ "_id" := by
  rw [joinKey]
  by_cases hp : parent = ""
  · rw [if_neg (by simp [hp])]
    intro hk
    exact h ⟨hk, hp⟩
  · rw [if_pos hp]
    intro heq
    have hdot : '.' ∈ ("_id" : String).toList := by
      rw [← heq]
      show '.' ∈ (parent ++ "." ++ key).data
      rw [String.data_append, String.data_append]
      exact List.mem_append.2 (Or.inl (List.mem_append.2 (Or.inr (by decide))))
    exact absurd hdot (by decide)

theorem dictSet_no_id {m : List (String × Val)} {k : String} {v : Val}
    (hm : ∀ p ∈ m, p.1 ≠ "_id") (hk : k ≠ "_id") :
    ∀ p ∈ dictSet m k v, p.1 ≠ "_id" := by
  intro p hp
  rw [dictSet] at hp
  by_cases hany : m.any (fun q => q.1 = k) = true
  · rw [if_pos hany] at hp
    obtain ⟨q, hq, hpq⟩ := List.mem_map.1 hp
    by_cases hqk : q.1 = k
    · rw [if_pos hqk] at hpq
      rw [← hpq]
      exact hk
    · rw [if_neg hqk] at hpq
      rw [← hpq]
      exact hm q hq
  · rw [if_neg hany] at hp
    rcases List.mem_append.1 hp with h1 | h2
    · exact hm p h1
    · rw [List.mem_singleton.1 h2]
      exact hk

theorem pyDictUpdate_no_id {m adds : List (String × Val)}
    (hm : ∀ p ∈ m, p.1 ≠ "_id") (hadds : ∀ p ∈ adds, p.1 ≠ "_id") :
    ∀ p ∈ pyDictUpdate m adds, p.1 ≠ "_id" := by
  rw [pyDictUpdate]
  induction adds generalizing m with
  | nil => exact hm
  | cons a adds ih =>
      simp only [List.foldl_cons]
      exact ih (dictSet_no_id hm (hadds a (List.mem_cons_self a adds)))
        (fun p hp => hadds p (List.mem_cons_of_mem a hp))

theorem flattenFoldAux_no_id (fuel : Nat) (nk : String)
    (hrec : ∀ (d : List (String × Val)) (parent : String) (items : List (String × Val)),
      (∀ p ∈ items, p.1 ≠ "_id") → ∀ p ∈ flattenFuel fuel d parent items, p.1 ≠ "_id") :
    ∀ (xs : List Val) (items : List (String × Val)), (∀ p ∈ items, p.1 ≠ "_id") →
    ∀ p ∈ xs.foldl (fun acc el =>
        match el with
        | .dict d => pyDictUpdate acc (flattenFuel fuel d nk [])
        | _ => acc) items, p.1 ≠ "_id" := by
  intro xs
  induction xs with
  | nil => intro items h; exact h
  | cons x xs ihx =>
      intro items h
      simp only [List.foldl_cons]
      apply ihx
      cases x
      case dict d =>
        exact pyDictUpdate_no_id h (hrec d nk [] (fun p hp => absurd hp (List.not_mem_nil p)))
      all_goals exact h

theorem flattenFuel_no_id : ∀ (fuel : Nat) (doc : List (String × Val)) (parent : String)
    (items : List (String × Val)), (∀ p ∈ items, p.1 ≠ "_id") →
    ∀ p ∈ flattenFuel fuel doc parent items, p.1 ≠ "_id" := by
  intro fuel
  induction fuel with
  | zero => intro doc parent items h; exact h
  | succ fuel ih =>
      intro doc parent items h
      cases doc with
      | nil => exact h
      | cons kv rest =>
          obtain ⟨key, value⟩ := kv
          simp only [flattenFuel]
          apply ih
          by_cases hskip : key = "_id" ∧ parent = ""
          · rw [if_pos hskip]
            exact h
          · rw [if_neg hskip]
            have hnk : joinKey parent key ≠ "_id" := joinKey_ne_id parent key hskip
            cases value with
            | dict d =>
              exact pyDictUpdate_no_id h
                (ih d (joinKey parent key) [] (fun p hp => absurd hp (List.not_mem_nil p)))
            | list xs =>
              dsimp only []
              by_cases hdict : xs.any (fun v => match v with | Val.dict _ => true | _ => false) = true
              · rw [if_pos hdict]
                exact flattenFoldAux_no_id fuel (joinKey parent key) (fun d pr it hit => ih d pr it hit) xs items h
              · rw [if_neg hdict]
                exact dictSet_no_id h hnk
            | str a => exact dictSet_no_id h hnk
            | int a => exact dictSet_no_id h hnk
            | float a => exact dictSet_no_id h hnk
            | bool a => exact dictSet_no_id h hnk
            | dt a => exact dictSet_no_id h hnk
            | objectId a => exact dictSet_no_id h hnk
            | null => exact dictSet_no_id h hnk

theorem merge_no_id {ft : List (String × String)} {k t : String}
    (h : sdictGet ft "_id" = none) (hk : "_id" ≠ k) :
    sdictGet (_merge_field_type ft k t) "_id" = none := by
  rcases he : sdictGet ft k with _ | e
  · simp only [_merge_field_type, he]
    rw [sdictGet_set_ne _ _ _ _ hk]
    exact h
  · simp only [_merge_field_type, he, gt_iff_lt]
    by_cases hgt : _type_priority e < _type_priority t
    · rw [if_pos hgt, sdictGet_set_ne _ _ _ _ hk]
      exact h
    · rw [if_neg hgt]
      exact h

theorem detectFoldAux_no_id (fuel : Nat) (fk : String)
    (hrec : ∀ (d : List (String × Val)) (parent : String) (ft : List (String × String)),
      sdictGet ft "_id" = none → sdictGet (detectFuel fuel d parent ft) "_id" = none) :
    ∀ (xs : List Val) (ft : List (String × String)), sdictGet ft "_id" = none →
    sdictGet (xs.foldl (fun acc el =>
        match el with
        | .dict d => detectFuel fuel d fk acc
        | _ => acc) ft) "_id" = none := by
  intro xs
  induction xs with
  | nil => intro ft h; exact h
  | cons x xs ihx =>
      intro ft h
      simp only [List.foldl_cons]
      apply ihx
      cases x
      case dict d => exact hrec d fk ft h
      all_goals exact h

theorem detectFuel_no_id : ∀ (fuel : Nat) (doc : List (String × Val)) (parent : String)
    (ft : List (String × String)), sdictGet ft "_id" = none →
    sdictGet (detectFuel fuel doc parent ft) "_id" = none := by
  intro fuel
  induction fuel with
  | zero => intro doc parent ft h; exact h
  | succ fuel ih =>
      intro doc parent ft h
      cases doc with
      | nil => exact h
      | cons kv rest =>
          obtain ⟨key, value⟩ := kv
          simp only [detectFuel]
          apply ih
          by_cases hskip : key = "_id" ∧ parent = ""
          · rw [if_pos hskip]
            exact h
          · rw [if_neg hskip]
            have hnk : "_id" ≠ joinKey parent key :=
              fun hh => joinKey_ne_id parent key hskip hh.symm
            cases value with
            | dict d => exact ih d (joinKey parent key) _ (merge_no_id h hnk)
            | list xs =>
              exact detectFoldAux_no_id fuel (joinKey parent key)
                (fun d pr ft2 hft2 => ih d pr ft2 hft2) xs _ (merge_no_id h hnk)
            | str a => exact merge_no_id h hnk
            | int a => exact merge_no_id h hnk
            | float a => exact merge_no_id h hnk
            | bool a => exact merge_no_id h hnk
            | dt a => exact merge_no_id h hnk
            | objectId a => exact merge_no_id h hnk
            | null => exact merge_no_id h hnk

theorem setInsert_no_id {l : List String} {x : String}
    (hl : "_id" ∉ l) (hx : x ≠ "_id") : "_id" ∉ setInsert l x := by
  rw [setInsert]
  by_cases hc : l.contains x = true
  · rw [if_pos hc]
    exact hl
  · rw [if_neg hc]
    intro hmem
    rcases List.mem_append.1 hmem with h1 | h2
    · exact hl h1
    · exact hx (List.mem_singleton.1 h2).symm

theorem mem_insertSorted {a x : String} : ∀ {l : List String},
    a ∈ insertSorted x l → a = x ∨ a ∈ l := by
  intro l
  induction l with
  | nil =>
      intro h
      exact Or.inl (List.mem_singleton.1 h)
  | cons y ys ih =>
      intro h
      rw [insertSorted] at h
      by_cases hle : pyStrLe x y = true
      · rw [if_pos hle] at h
        rcases List.mem_cons.1 h with h1 | h2
        · exact Or.inl h1
        · exact Or.inr h2
      · rw [if_neg hle] at h
        rcases List.mem_cons.1 h with h1 | h2
        · exact Or.inr (h1 ▸ List.mem_cons_self y ys)
        · rcases ih h2 with h3 | h4
          · exact Or.inl h3
          · exact Or.inr (List.mem_cons_of_mem y h4)

theorem mem_pySorted {a : String} : ∀ {l : List String}, a ∈ pySorted l → a ∈ l := by
  intro l
  induction l with
  | nil => intro h; exact h
  | cons y ys ih =>
      intro h
      rcases mem_insertSorted h with h1 | h2
      · exact h1 ▸ List.mem_cons_self y ys
      · exact List.mem_cons_of_mem y (ih h2)

theorem schemaFoldAux_no_id :
    ∀ (flat : List (String × Val)), (∀ p ∈ flat, p.1 ≠ "_id") →
    ∀ (acc : List String × List String × List (String × String)),
    "_id" ∉ acc.1 → "_id" ∉ acc.2.1 → sdictGet acc.2.2 "_id" = none →
    let r := flat.foldl (fun acc (p : String × Val) =>
      let all' := setInsert acc.1 p.1
      let isNum := match p.2 with | .int _ => true | .float _ => true | _ => false
      let num' := if isNum then setInsert acc.2.1 p.1 else acc.2.1
      let ft' := _merge_field_type acc.2.2 p.1 (_detect_type p.2)
      (all', num', ft')) acc
    "_id" ∉ r.1 ∧ "_id" ∉ r.2.1 ∧ sdictGet r.2.2 "_id" = none := by
  intro flat
  induction flat with
  | nil => exact fun _ acc h1 h2 h3 => ⟨h1, h2, h3⟩
  | cons p rest ih =>
      intro hflat acc h1 h2 h3
      simp only [List.foldl_cons]
      have hp1 : p.1 ≠ "_id" := hflat p (List.mem_cons_self p rest)
      refine ih (fun q hq => hflat q (List.mem_cons_of_mem p hq)) _ ?_ ?_ ?_
      · exact setInsert_no_id h1 hp1
      · by_cases hn : (match p.2 with | Val.int _ => true | Val.float _ => true | _ => false) = true
        · rw [if_pos hn]
          exact setInsert_no_id h2 hp1
        · rw [if_neg hn]
          exact h2
      · exact merge_no_id h3 (fun hh => hp1 hh.symm)

/-- The sampled catalog never contains the identifier field: `_id` is in
neither field list, and has no recorded type. -/
theorem schema_no_id (docs : List (List (String × Val))) :
    "_id" ∉ (get_collection_schema docs).1 ∧
    "_id" ∉ (get_collection_schema docs).2.1 ∧
    sdictGet (get_collection_schema docs).2.2 "_id" = none := by
  rw [get_collection_schema]
  by_cases hnil : docs = []
  · rw [if_pos hnil]
    exact ⟨List.not_mem_nil _, List.not_mem_nil _, rfl⟩
  · rw [if_neg hnil]
    have hfold : ∀ (ds : List (List (String × Val)))
        (st : List String × List String × List (String × String)),
        "_id" ∉ st.1 → "_id" ∉ st.2.1 → sdictGet st.2.2 "_id" = none →
        let r := ds.foldl (fun st doc =>
          let ft1 := _detect_field_types_recursive doc "" st.2.2
          let flat := flatten_document doc ""
          flat.foldl (fun acc (p : String × Val) =>
            let all' := setInsert acc.1 p.1
            let isNum := match p.2 with | .int _ => true | .float _ => true | _ => false
            let num' := if isNum then setInsert acc.2.1 p.1 else acc.2.1
            let ft' := _merge_field_type acc.2.2 p.1 (_detect_type p.2)
            (all', num', ft')) (st.1, st.2.1, ft1)) st
        "_id" ∉ r.1 ∧ "_id" ∉ r.2.1 ∧ sdictGet r.2.2 "_id" = none := by
      intro ds
      induction ds with
      | nil => exact fun st h1 h2 h3 => ⟨h1, h2, h3⟩
      | cons doc ds ih =>
          intro st h1 h2 h3
          simp only [List.foldl_cons]
          have hft1 : sdictGet (_detect_field_types_recursive doc "" st.2.2) "_id" = none :=
            detectFuel_no_id _ doc "" st.2.2 h3
          have hflat : ∀ p ∈ flatten_document doc "", p.1 ≠ "_id" :=
            flattenFuel_no_id _ doc "" [] (fun p hp => absurd hp (List.not_mem_nil p))
          have hinner := schemaFoldAux_no_id (flatten_document doc "") hflat
            (st.1, st.2.1, _detect_field_types_recursive doc "" st.2.2) h1 h2 hft1
          exact ih _ hinner.1 hinner.2.1 hinner.2.2
    have hr := hfold docs ([], [], []) (List.not_mem_nil _) (List.not_mem_nil _) rfl
    exact ⟨fun hmem => hr.1 (mem_pySorted hmem),
           fun hmem => hr.2.1 (mem_pySorted hmem),
           hr.2.2⟩

-- ---------------------------------------------------------------------------
-- Claim C6 — the identifier disjunction
-- ---------------------------------------------------------------------------

/-- C6 counterexample: `contains` on `_id` never reaches the identifier
disjunction — a 24-hex value compiles to a single exact `ObjectId` filter
(and any other value to a substring regex), with no as-given-string
alternative, refuting the claim for the `contains` operator. -/
theorem c6_contains_id_single_filter :
    build_match_stage [⟨"_id", "contains", Val.str "507f191e810c19729de860ea"⟩] [] =
      [("_id", Val.objectId "507f191e810c19729de860ea")] := by decide

/-- C6 (as corrected): for `eq` on `_id` with a dot-free text value, the
compiled filter is exactly the disjunction over the plausible native
representations — the value as the given string, as an integer when
integer-parseable, as the 24-hex identifier type when of that shape —
collapsed when a single candidate remains; the 24-hex example compiles to
the string-or-ObjectId disjunction; a digits-with-one-dot non-integral
value additionally picks up the float representation (`3.5` compiles to
the string-or-float disjunction); and `contains` on `_id` is not
disjunctive — over any sampled catalog it follows the generic contains
path, a substring regex for every non-24-hex value. -/
theorem c6_id_eq_disjunctive (v : String) (hdot : '.' ∉ v.toList) :
    _build_id_filter (Val.str v) = idDisjunctionSpec v ∧
    build_match_stage [⟨"_id", "eq", Val.str "507f191e810c19729de860ea"⟩] [] =
      [("$or", Val.list [Val.dict [("_id", Val.str "507f191e810c19729de860ea")],
                         Val.dict [("_id", Val.objectId "507f191e810c19729de860ea")]])] ∧
    _build_id_filter (Val.str "3.5") =
      [("$or", Val.list [Val.dict [("_id", Val.str "3.5")],
                         Val.dict [("_id", Val.float ⟨35, 10⟩)]])] ∧
    (∀ (docs : List (List (String × Val))) (w : String), isObjectIdHex w = false →
      build_match_stage [⟨"_id", "contains", Val.str w⟩] (get_collection_schema docs).2.2 =
        [("_id", Val.dict [("$regex", Val.str (re_escape w)), ("$options", Val.str "i")])]) := by
  refine ⟨?_, by decide, by decide, ?_⟩
  case refine_2 =>
    intro docs w hw
    simp [build_match_stage, conditionFilter, _case_insensitive_contains,
      (schema_no_id docs).2.2, hw]
  simp only [_build_id_filter, idDisjunctionSpec, pyStr]
  rcases hq : pyFloatOfString v with _ | q
  · simp
  · have hsd := stripFirstDot_no_dot v hdot
    by_cases hd : pyIsDigit (lstripMinus v) = true
    · rcases pyFloat_digitish v hd with hnone | ⟨n, hsome⟩
      · rw [hnone] at hq; cases hq
      · rw [hsome] at hq
        injection hq with hq
        subst hq
        simp [hsd, hd, eqInt_den_one]
    · simp [hsd, hd]

theorem c6_id_eq_disjunctive_app :
    _build_id_filter (Val.str "42") =
      [("$or", Val.list [Val.dict [("_id", Val.str "42")],
                         Val.dict [("_id", Val.int 42)]])] ∧
    build_match_stage [⟨"_id", "eq", Val.str "507f191e810c19729de860ea"⟩] [] =
      [("$or", Val.list [Val.dict [("_id", Val.str "507f191e810c19729de860ea")],
                         Val.dict [("_id", Val.objectId "507f191e810c19729de860ea")]])] ∧
    _build_id_filter (Val.str "3.5") =
      [("$or", Val.list [Val.dict [("_id", Val.str "3.5")],
                         Val.dict [("_id", Val.float ⟨35, 10⟩)]])] ∧
    build_match_stage [⟨"_id", "contains", Val.str "abc"⟩]
        (get_collection_schema [[("x", Val.int 1)]]).2.2 =
      [("_id", Val.dict [("$regex", Val.str (re_escape "abc")), ("$options", Val.str "i")])] := by
  have h := c6_id_eq_disjunctive "42" (by decide)
  exact ⟨h.1.trans (by decide), h.2.1, h.2.2.1,
    h.2.2.2 [[("x", Val.int 1)]] "abc" (by decide)⟩

-- ---------------------------------------------------------------------------
-- Resolution soundness: resolve_field_name only returns catalog members
-- ---------------------------------------------------------------------------

theorem resolveExact_mem {u : String} {af : List String} {f : String}
    (h : resolveExact u af = some f) : f ∈ af :=
  List.mem_of_find?_eq_some h

theorem resolveSuffix_mem {u : String} {af : List String} {f : String}
    (h : resolveSuffix u af = some f) : f ∈ af := by
  rw [resolveSuffix] at h
  exact List.mem_of_mem_filter (head?_mem h)

theorem resolveMultiFuzzy_mem {u : String} {af : List String} {f : String}
    (h : resolveMultiFuzzy u af = some f) : f ∈ af := by
  rw [resolveMultiFuzzy] at h
  by_cases hdot : strContains u "." = true
  · rw [if_pos hdot] at h
    have gen : ∀ (l : List String), (∀ a ∈ l, a ∈ af) →
        ∀ (acc : Option String × PyFloat), (∀ y, acc.1 = some y → y ∈ af) →
        ∀ y, (l.foldl (fun (acc : Option String × PyFloat) af2 =>
          if ¬ strContains af2 "." = true then acc
          else
            let af_segments := splitOnDot (pyLower af2)
            if (splitOnDot u).length ≠ af_segments.length then acc
            else
              let scores := ((splitOnDot u).zip af_segments).map (fun p => sm_ratio p.1 p.2)
              let avg := (scores.foldl PyFloat.add ⟨0, 1⟩).divNat scores.length
              if PyFloat.le ⟨8, 10⟩ avg ∧ PyFloat.lt acc.2 avg then (some af2, avg)
              else acc) acc).1 = some y → y ∈ af := by
      intro l
      induction l with
      | nil => exact fun _ acc hacc => hacc
      | cons a l ihl =>
          intro hl acc hacc
          simp only [List.foldl_cons]
          apply ihl (fun b hb => hl b (List.mem_cons_of_mem a hb))
          intro y hy
          by_cases h1 : ¬ strContains a "." = true
          · rw [if_pos h1] at hy
            exact hacc y hy
          · rw [if_neg h1] at hy
            by_cases h2 : (splitOnDot u).length ≠ (splitOnDot (pyLower a)).length
            · rw [if_pos h2] at hy
              exact hacc y hy
            · rw [if_neg h2] at hy
              split at hy
              · injection hy with hy
                exact hy ▸ hl a (List.mem_cons_self a l)
              · exact hacc y hy
    exact gen af (fun a ha => ha) (none, ⟨0, 1⟩) (fun y hy => absurd hy (by simp)) f h
  · rw [if_neg hdot] at h
    cases h

theorem candidateMap_mem {af : List String} {p : String × String}
    (hp : p ∈ candidateMap af) : p.2 ∈ af := by
  rw [candidateMap] at hp
  have gen : ∀ (l : List String), (∀ a ∈ l, a ∈ af) →
      ∀ (m : List (String × String)), (∀ q ∈ m, q.2 ∈ af) →
      ∀ q ∈ l.foldl (fun m af2 =>
        let m1 :=
          if m.any (fun p => p.1 = pyLower af2) then
            m.map (fun p => if p.1 = pyLower af2 then (p.1, af2) else p)
          else m ++ [(pyLower af2, af2)]
        if strContains af2 "." then
          let seg := pyLower (lastSegment af2)
          if m1.any (fun p => p.1 = seg) then m1 else m1 ++ [(seg, af2)]
        else m1) m, q.2 ∈ af := by
    intro l
    induction l with
    | nil => exact fun _ m hm => hm
    | cons a l ihl =>
        intro hl m hm
        simp only [List.foldl_cons]
        apply ihl (fun b hb => hl b (List.mem_cons_of_mem a hb))
        have ha : a ∈ af := hl a (List.mem_cons_self a l)
        have hm1 : ∀ q ∈ (if m.any (fun p => p.1 = pyLower a) = true then
            m.map (fun p => if p.1 = pyLower a then (p.1, a) else p)
          else m ++ [(pyLower a, a)]), q.2 ∈ af := by
          intro q hq
          by_cases hany : m.any (fun p => p.1 = pyLower a) = true
          · rw [if_pos hany] at hq
            obtain ⟨r, hr, hrq⟩ := List.mem_map.1 hq
            by_cases hrk : r.1 = pyLower a
            · rw [if_pos hrk] at hrq
              rw [← hrq]
              exact ha
            · rw [if_neg hrk] at hrq
              rw [← hrq]
              exact hm r hr
          · rw [if_neg hany] at hq
            rcases List.mem_append.1 hq with h1 | h2
            · exact hm q h1
            · rw [List.mem_singleton.1 h2]
              exact ha
        intro q hq
        by_cases hdot : strContains a "." = true
        · rw [if_pos hdot] at hq
          by_cases hseg : (if m.any (fun p => p.1 = pyLower a) = true then
              m.map (fun p => if p.1 = pyLower a then (p.1, a) else p)
            else m ++ [(pyLower a, a)]).any (fun p => p.1 = pyLower (lastSegment a)) = true
          · rw [if_pos hseg] at hq
            exact hm1 q hq
          · rw [if_neg hseg] at hq
            rcases List.mem_append.1 hq with h1 | h2
            · exact hm1 q h1
            · rw [List.mem_singleton.1 h2]
              exact ha
        · rw [if_neg hdot] at hq
          exact hm1 q hq
  exact gen af (fun a ha => ha) [] (fun q hq => absurd hq (List.not_mem_nil q)) p hp

theorem resolveFuzzy_mem {u : String} {af : List String} {f : String}
    (h : resolveFuzzy u af = some f) : f ∈ af := by
  rw [resolveFuzzy] at h
  rcases hg : get_close_matches u ((candidateMap af).map Prod.fst) 1 ⟨8, 10⟩ with _ | ⟨k, ks⟩
  · rw [hg] at h
    cases h
  · rw [hg] at h
    dsimp only [] at h
    rcases hf : (candidateMap af).find? (fun p => p.1 = k) with _ | q
    · rw [hf] at h
      cases h
    · rw [hf] at h
      injection h with h
      exact h ▸ candidateMap_mem (List.mem_of_find?_eq_some hf)

theorem resolveRest_mem {u : String} {af : List String} {f : String}
    (h : resolveRest u af = some f) : f ∈ af := by
  rw [resolveRest] at h
  rcases orElse_some h with h1 | ⟨_, h2⟩
  · exact resolveSuffix_mem h1
  · rcases orElse_some h2 with h3 | ⟨_, h4⟩
    · exact resolveMultiFuzzy_mem h3
    · exact resolveFuzzy_mem h4

/-- Resolution soundness: whatever path of the cascade fires, the canonical
name it returns is a member of the catalog. -/
theorem resolve_mem {u : String} {af : List String} {f : String}
    (h : resolve_field_name u af = some f) : f ∈ af := by
  rw [resolve_field_name] at h
  rcases orElse_some h with h1 | ⟨_, h2⟩
  · exact resolveExact_mem h1
  · rcases orElse_some h2 with h3 | ⟨_, h4⟩
    · by_cases hsp : strContains (pyStrip u) " " = true
      · rw [if_pos hsp] at h3
        rcases orElse_some h3 with h5 | ⟨_, h6⟩
        · exact resolveExact_mem h5
        · exact resolveRest_mem h6
      · rw [if_neg hsp] at h3
        cases h3
    · exact resolveRest_mem h4

-- ---------------------------------------------------------------------------
-- Claim C10 — schema inference and the identifier field
-- ---------------------------------------------------------------------------

/-- C10 counterexample: a sampled document with the distinct key `_ID`
yields that key in the catalog, and the condition field `_id` then resolves
against it by the case-insensitive exact step — so an `_id` condition can
resolve by exact match, refuting the final clause of the claim. -/
theorem c10_case_variant_id_resolves :
    (get_collection_schema [[("_ID", Val.int 1)]]).1 = ["_ID"] ∧
    resolve_field_name "_id" ["_ID"] = some "_ID" := by decide

/-- C10 (as corrected): schema inference never emits the identifier field —
`_id` is in neither returned field list and has no recorded type — and an
IR condition naming `_id` can never resolve verbatim to `_id` against such
a catalog (it can still resolve to a case variant by the case-insensitive
exact step). -/
theorem c10_schema_excludes_id (docs : List (List (String × Val))) :
    "_id" ∉ (get_collection_schema docs).1 ∧
    "_id" ∉ (get_collection_schema docs).2.1 ∧
    sdictGet (get_collection_schema docs).2.2 "_id" = none ∧
    (∀ f, resolve_field_name "_id" (get_collection_schema docs).1 = some f → f ≠ "_id") := by
  obtain ⟨h1, h2, h3⟩ := schema_no_id docs
  refine ⟨h1, h2, h3, ?_⟩
  intro f hf hcontra
  exact h1 (hcontra ▸ resolve_mem hf)

theorem c10_schema_excludes_id_app :
    "_id" ∉ (get_collection_schema [[("_ID", Val.int 1)]]).1 ∧
    "_ID" ≠ "_id" := by
  refine ⟨(c10_schema_excludes_id [[("_ID", Val.int 1)]]).1, ?_⟩
  exact (c10_schema_excludes_id [[("_ID", Val.int 1)]]).2.2.2 "_ID" (by decide)

-- ---------------------------------------------------------------------------
-- Claim C4 — eq on partial-match (array) fields
-- ---------------------------------------------------------------------------

/-- C4: for `eq` with a scalar string value on a field the sampled catalog
types as array_of_strings or array_mixed, the compiler emits the
case-insensitive unanchored substring regex (whose semantics is exactly
case-insensitive substring containment, so value red matches a stored
element bright red car), while `eq` with a literal list value compiles to
exact structural array equality instead. -/
theorem c4_partial_match_eq (docs : List (List (String × Val))) (field t v s : String)
    (xs : List Val)
    (hft : sdictGet (get_collection_schema docs).2.2 field = some t)
    (ht : t ∈ _PARTIAL_MATCH_TYPES) :
    build_match_stage [⟨field, "eq", Val.str v⟩] (get_collection_schema docs).2.2 =
      [(field, Val.dict [("$regex", Val.str (re_escape v)), ("$options", Val.str "i")])] ∧
    mongoRegexMatch (re_escape v) "i" s = some (ciContainsStr s v) ∧
    build_match_stage [⟨field, "eq", Val.list xs⟩] (get_collection_schema docs).2.2 =
      [(field, Val.list xs)] := by
  have hid : field ≠ "_id" := by
    intro hcontra
    have h3 := (schema_no_id docs).2.2
    rw [hcontra, h3] at hft
    cases hft
  have hts : t = "array_of_strings" ∨ t = "array_mixed" := by
    simpa [_PARTIAL_MATCH_TYPES] using ht
  refine ⟨?_, mongoRegexMatch_unanchored v s, ?_⟩
  · rcases hts with rfl | rfl <;>
      simp [build_match_stage, conditionFilter, _build_eq_filter, _case_insensitive_contains,
        _PARTIAL_MATCH_TYPES, hft, hid]
  · rcases hts with rfl | rfl <;>
      simp [build_match_stage, conditionFilter, _build_eq_filter, hft]

theorem c4_partial_match_eq_app :
    build_match_stage [⟨"tags", "eq", Val.str "red"⟩]
        (get_collection_schema [[("tags", Val.list [Val.str "blue"])]]).2.2 =
      [("tags", Val.dict [("$regex", Val.str (re_escape "red")), ("$options", Val.str "i")])] ∧
    mongoRegexMatch (re_escape "red") "i" "bright red car" = some true ∧
    build_match_stage [⟨"tags", "eq", Val.list [Val.str "red", Val.str "blue"]⟩]
        (get_collection_schema [[("tags", Val.list [Val.str "blue"])]]).2.2 =
      [("tags", Val.list [Val.str "red", Val.str "blue"])] := by
  have h := c4_partial_match_eq [[("tags", Val.list [Val.str "blue"])]]
    "tags" "array_of_strings" "red" "bright red car" [Val.str "red", Val.str "blue"]
    (by decide) (by decide)
  exact ⟨h.1, h.2.1.trans (by decide), h.2.2⟩

-- ---------------------------------------------------------------------------
-- Claim C1 — validated field references live in the catalog
-- ---------------------------------------------------------------------------

theorem validateConditions_ok {af : List String} :
    ∀ {cs cs' : List Condition}, validateConditions af cs = .ok cs' →
    (∀ c ∈ cs', c.field ∈ af) ∧ cs'.length = cs.length ∧
    (∀ c ∈ cs, (resolve_field_name c.field af).isSome) := by
  intro cs
  induction cs with
  | nil =>
      intro cs' h
      injection h with h
      subst h
      exact ⟨fun c hc => absurd hc (List.not_mem_nil c), rfl,
        fun c hc => absurd hc (List.not_mem_nil c)⟩
  | cons c cs ih =>
      intro cs' h
      simp only [validateConditions] at h
      rcases hr : resolve_field_name c.field af with _ | r
      · rw [hr] at h; cases h
      · rw [hr] at h
        dsimp only [] at h
        by_cases hop : ALLOWED_OPERATORS.contains c.operator = true
        · rw [if_pos hop] at h
          cases hv : validateConditions af cs with
          | error e => rw [hv] at h; cases h
          | ok cs2 =>
              rw [hv] at h
              injection h with h
              subst h
              obtain ⟨ha, hb, hc2⟩ := ih hv
              refine ⟨?_, by simp [hb], ?_⟩
              · intro c' hc'
                rcases List.mem_cons.1 hc' with h1 | h2
                · rw [h1]
                  exact resolve_mem hr
                · exact ha c' h2
              · intro c' hc'
                rcases List.mem_cons.1 hc' with h1 | h2
                · rw [h1, hr]
                  rfl
                · exact hc2 c' h2
        · rw [if_neg hop] at h
          cases h

theorem validateProjection_ok {af : List String} :
    ∀ {ps rs : List String}, validateProjection af ps = .ok rs →
    ∀ p ∈ rs, p ∈ af := by
  intro ps
  induction ps with
  | nil =>
      intro rs h
      injection h with h
      subst h
      exact fun p hp => absurd hp (List.not_mem_nil p)
  | cons q ps ih =>
      intro rs h
      simp only [validateProjection] at h
      rcases hr : resolve_field_name q af with _ | r
      · rw [hr] at h; cases h
      · rw [hr] at h
        dsimp only [] at h
        cases hv : validateProjection af ps with
        | error e => rw [hv] at h; cases h
        | ok rs2 =>
            rw [hv] at h
            injection h with h
            subst h
            intro p hp
            rcases List.mem_cons.1 hp with h1 | h2
            · exact h1 ▸ resolve_mem hr
            · exact ih hv p h2

/-- C1 (as corrected): when validation succeeds, every condition field of
the validated IR is verbatim a catalog member, no condition was dropped
(and each input condition field actually resolved), every nonempty
aggregation or sort field reference is a catalog member, and every
projection entry is a catalog member.  The empty-string escape hatch below
is the needed correction: a falsy aggregation or sort field skips
resolution entirely. -/
theorem c1_validated_fields_in_catalog (ir irp : IR) (af : List String)
    (h : validate_ir ir af = .ok irp) :
    (∀ c ∈ irp.conditions, c.field ∈ af) ∧
    irp.conditions.length = ir.conditions.length ∧
    (∀ c ∈ ir.conditions, (resolve_field_name c.field af).isSome) ∧
    (∀ a, irp.aggregation = some a → ∀ f, a.field = some f → f ≠ "" → f ∈ af) ∧
    (∀ sp, irp.sort = some sp → sp.field ≠ "" → sp.field ∈ af) ∧
    (∀ ps, irp.projection = some ps → ∀ p ∈ ps, p ∈ af) := by
  simp only [validate_ir, bind, Except.bind, pure, Except.pure] at h
  rcases hco : validateConditions af ir.conditions with e | conds
  · rw [hco] at h
    cases h
  · rw [hco] at h
    dsimp only [] at h
    obtain ⟨hA, hB, hC⟩ := validateConditions_ok hco
    set lim := (match ir.limit with
      | some l => some (if l > MAX_LIMIT then MAX_LIMIT else l)
      | none => none : Option Int) with hlim
    repeat' split at h
    all_goals cases h
    all_goals refine ⟨hA, hB, hC, ?_, ?_, ?_⟩
    all_goals first
      | (intro a ha f hf hne
         cases ha <;>
           first
           | ((cases hf) <;> exact resolve_mem (by assumption))
           | (exfalso; simp_all [truthyOptStr]))
      | (intro ps hps p hp
         cases hps <;>
           first
           | exact validateProjection_ok (by assumption) p hp
           | (exfalso; simp_all))
      | (intro sp hsp hne
         cases hsp <;>
           first
           | exact resolve_mem (by assumption)
           | exact absurd hne (by assumption))

/-- C1 counterexample: an aggregation whose field is the empty string passes
validation untouched (Python truthiness skips it), so the validated IR
carries a field reference that is not in the catalog — it is neither
resolved nor rejected nor dropped. -/
theorem c1_empty_aggregation_field_passes :
    validate_ir { operation := "aggregate", conditions := [],
                  aggregation := some ⟨"sum", some ""⟩, sort := none, limit := none,
                  projection := none, meta := none } ["amount"] =
      .ok { operation := "aggregate", conditions := [],
            aggregation := some ⟨"sum", some ""⟩, sort := none, limit := none,
            projection := none, meta := none } ∧
    ("" ∈ ["amount"] → False) := by decide

theorem c1_validated_fields_in_catalog_app :
    (⟨"name", "eq", Val.str "x"⟩ : Condition).field ∈ ["name", "amount", "age"] ∧
    "amount" ∈ ["name", "amount", "age"] ∧
    "age" ∈ ["name", "amount", "age"] ∧
    "name" ∈ ["name", "amount", "age"] := by
  have h := c1_validated_fields_in_catalog
    { operation := "find", conditions := [⟨"Name", "eq", Val.str "x"⟩],
      aggregation := some ⟨"sum", some "amount"⟩, sort := some ⟨"age", "desc"⟩,
      limit := some 5, projection := some ["name"], meta := none }
    { operation := "find", conditions := [⟨"name", "eq", Val.str "x"⟩],
      aggregation := some ⟨"sum", some "amount"⟩, sort := some ⟨"age", "desc"⟩,
      limit := some 5, projection := some ["name"], meta := none }
    ["name", "amount", "age"] (by decide)
  exact ⟨h.1 ⟨"name", "eq", Val.str "x"⟩ (by decide),
    h.2.2.2.1 ⟨"sum", some "amount"⟩ rfl "amount" rfl (by decide),
    h.2.2.2.2.1 ⟨"age", "desc"⟩ rfl (by decide),
    h.2.2.2.2.2 ["name"] rfl "name" (by decide)⟩

-- ---------------------------------------------------------------------------
-- Claim C9 — determinism and the ambient clock
-- ---------------------------------------------------------------------------

end NlpMongo
